import Mathlib

/-!
Verification of the habit-tracking application's derived-analytics logic.

The definitions below are shallow embeddings of the TypeScript source:
  * the gamification route (points, badges, levels, next-level progress),
  * the heatmap route (mood and sentiment daily views),
  * the stats route (trend buckets and streaks),
  * the habit-stacks route (co-occurrence stacking suggestions),
  * the parse route (deterministic fallback classifier), and
  * the habits route (entry creation and goal-progress update).

Calendar dates are modelled as integer day indices (day 0 is a Sunday, so
the JS `getDay()` weekday is the day index modulo 7); calendar months are
an extra integer index on entries.  JS numbers are modelled as `Int`
where they are always integral and as `Rat` elsewhere; `Math.round` is
modelled as `jsRound` (floor of x + 1/2, matching JS half-up rounding).
-/

namespace Habit

/-- JS `Math.round`: round half toward positive infinity. -/
def jsRound (q : ℚ) : ℤ := Rat.floor (q + 1/2)

/-- Case-sensitive substring test on character lists
(JS `String.prototype.includes`). -/
def containsSub (pat : List Char) : List Char → Bool
  | [] => pat.isEmpty
  | c :: t => pat.isPrefixOf (c :: t) || containsSub pat t

/-- `hay.includes(pat)` for strings. -/
def strIncludes (hay pat : String) : Bool :=
  containsSub pat.toList hay.toList

/-- Lower-case a string character by character (JS `toLowerCase`,
restricted to the ASCII casing the source vocabulary uses). -/
def lowerStr (s : String) : String :=
  String.mk (s.toList.map Char.toLower)

/-- First-occurrence deduplication (JS `new Set(xs)` iterated in
insertion order). -/
def uniqFirstAux [DecidableEq α] : List α → List α → List α
  | [], _ => []
  | a :: t, seen => if a ∈ seen then uniqFirstAux t seen else a :: uniqFirstAux t (a :: seen)

/-- `[...new Set(xs)]`. -/
def uniqFirst [DecidableEq α] (l : List α) : List α := uniqFirstAux l []

/-! ## Insertion-ordered association maps (JS plain-object semantics) -/

/-- Lookup in an insertion-ordered association list. -/
def aGet [DecidableEq κ] (k : κ) : List (κ × β) → Option β
  | [] => none
  | (k', v) :: t => if k' = k then some v else aGet k t

/-- JS object bucket update: an existing key keeps its position and has
its value updated by `f`; a missing key is appended with `f init`. -/
def upsert [DecidableEq κ] (k : κ) (f : β → β) (init : β) : List (κ × β) → List (κ × β)
  | [] => [(k, f init)]
  | (k', v) :: t => if k' = k then (k', f v) :: t else (k', v) :: upsert k f init t

/-- Group a list into JS-object buckets keyed by `key`, each bucket
starting from `init` and folded with `upd` in encounter order. -/
def groupFold [DecidableEq κ] (key : α → κ) (upd : α → β → β) (init : β)
    (l : List α) : List (κ × β) :=
  l.foldl (fun m e => upsert (key e) (upd e) init m) []

/-- Fold a bucket update over a list of items. -/
def applyAll (upd : α → β → β) (l : List α) (b : β) : β :=
  l.foldl (fun b e => upd e b) b

/-- One logged habit entry, with the fields the analytics routes read.
`day` is the calendar-day index of the timestamp, `hour` its hour of day,
and `monthIdx` the index of its calendar month. -/
structure Entry where
  day : ℤ
  hour : ℕ := 12
  monthIdx : ℤ := 0
  rawText : String := ""
  activity : Option String := none
  type : Option String := none
  category : Option String := none
  mood : Option String := none
  sentiment : Option String := none
  quantity : Option ℚ := none
  unit : Option String := none
  trigger : Option String := none
  notes : Option String := none
  tags : Option (List String) := none
  deriving Repr, DecidableEq

/-- A user goal. -/
structure Goal where
  id : ℕ
  activity : String
  targetValue : ℚ
  currentValue : ℚ
  period : String
  isActive : Bool
  deriving Repr, DecidableEq

/-! ## Gamification route: levels and next-level progress -/

/-- One row of the `levels` table in `calculateLevel`. -/
structure LevelDef where
  min : ℤ
  level : ℕ
  title : String
  icon : String
  deriving Repr, DecidableEq

/-- The fixed `levels` table of `calculateLevel`. -/
def levelsTable : List LevelDef :=
  [⟨0, 1, "Beginner", "🌱"⟩,
   ⟨50, 2, "Apprentice", "📖"⟩,
   ⟨150, 3, "Habit Builder", "🏗️"⟩,
   ⟨300, 4, "Consistent", "⚖️"⟩,
   ⟨500, 5, "Dedicated", "💎"⟩,
   ⟨800, 6, "Habit Master", "🎯"⟩,
   ⟨1200, 7, "Champion", "🏆"⟩,
   ⟨1700, 8, "Legend", "⭐"⟩,
   ⟨2500, 9, "Habit God", "👑"⟩,
   ⟨3500, 10, "Transcendent", "🌟"⟩]

/-- The descending scan of `calculateLevel`: walk the table from the last
row down and return the first row whose `min` is at most `points`.
Recursing into the tail first visits later rows first. -/
def findLevel (points : ℤ) : List LevelDef → Option LevelDef
  | [] => none
  | l :: t =>
    match findLevel points t with
    | some r => some r
    | none => if points ≥ l.min then some l else none

/-- `calculateLevel` from the gamification route. -/
def calculateLevel (points : ℤ) : LevelDef :=
  (findLevel points levelsTable).getD ⟨0, 1, "Beginner", "🌱"⟩

/-- Return value of `getNextLevelProgress`. -/
structure Progress where
  current : ℤ
  needed : ℤ
  progress : ℤ
  deriving Repr, DecidableEq

/-- The interval scan in `getNextLevelProgress`: find consecutive
thresholds `a ≤ points < b` and report extrapolated percent progress. -/
def gnlpScan (points : ℤ) : List ℤ → Option Progress
  | a :: b :: t =>
    if a ≤ points ∧ points < b then
      some ⟨points - a, b - a, jsRound (((points - a : ℤ) : ℚ) / ((b - a : ℤ) : ℚ) * 100)⟩
    else gnlpScan points (b :: t)
  | _ => none

/-- The `levelThresholds` array of `getNextLevelProgress` (note the extra
`5000` entry beyond the named-level table). -/
def levelThresholds : List ℤ := [0, 50, 150, 300, 500, 800, 1200, 1700, 2500, 3500, 5000]

/-- `getNextLevelProgress` from the gamification route. -/
def getNextLevelProgress (points : ℤ) : Progress :=
  (gnlpScan points levelThresholds).getD ⟨points, 100, 100⟩

/-! ## Heatmap route: mood view (daily block)

The heatmap route's `generateMoodHeatmap` also produces hourly and
weekly distributions and a summary block; the embedding below covers the
day-by-day block the claims are about.  The presentational fields
(weekday/month display strings and hex colors) are omitted. -/

/-- The `moodScores` lookup table of `generateMoodHeatmap`. -/
def moodScores : List (String × ℕ) :=
  [("happy", 5), ("great", 5), ("amazing", 5), ("proud", 5), ("accomplished", 5),
   ("energized", 5),
   ("good", 4), ("motivated", 4), ("calm", 4), ("relaxed", 4),
   ("neutral", 3), ("indifferent", 3),
   ("tired", 2), ("stressed", 2), ("anxious", 2), ("bored", 2),
   ("sad", 1), ("guilty", 1), ("ashamed", 1), ("bad", 1), ("angry", 1), ("frustrated", 1)]

/-- One `dayData` bucket of the mood heatmap. -/
structure MoodBucket where
  score : ℕ
  count : ℕ
  moods : List String
  deriving Repr, DecidableEq

/-- Per-entry update of a `dayData` bucket: the source guards with
`entry.mood && moodScores[entry.mood]`, so only moods present in the
lookup contribute to `score`, `count` and `moods`. -/
def moodUpd (e : Entry) (b : MoodBucket) : MoodBucket :=
  match e.mood with
  | some m =>
    match aGet m moodScores with
    | some s => ⟨b.score + s, b.count + 1, b.moods ++ [m]⟩
    | none => b
  | none => b

/-- Number of occurrences of `m` in `l`
(JS `l.filter(x => x === m).length`). -/
def freqIn (l : List String) (m : String) : ℕ := l.countP (· = m)

/-- Dominant mood of a day: the mood list sorted descending by frequency
(stable sort, so encounter order breaks ties), first element;
`"neutral"` when the day has no scored moods. -/
def dominantOf (moods : List String) : String :=
  match moods with
  | [] => "neutral"
  | _ :: _ =>
    (moods.mergeSort (fun x y => decide (freqIn moods y ≤ freqIn moods x))).headD "neutral"

/-- `Math.round(q * 10) / 10`: one-decimal rounding. -/
def roundTenth (q : ℚ) : ℚ := ((jsRound (q * 10) : ℤ) : ℚ) / 10

/-- One row of the daily mood heatmap. -/
structure MoodRow where
  date : ℤ
  score : ℚ
  count : ℕ
  mood : String
  intensity : ℤ
  deriving Repr, DecidableEq

/-- Build one daily row from a bucket (`avgScore` defaults to 3 on a day
with no scored mood). -/
def mkMoodRow (d : ℤ) (b : MoodBucket) : MoodRow :=
  let avgScore : ℚ := if b.count > 0 then (b.score : ℚ) / (b.count : ℚ) else 3
  { date := d
    score := roundTenth avgScore
    count := b.count
    mood := dominantOf b.moods
    intensity := jsRound (avgScore / 5 * 100) }

/-- The `daily` block of `generateMoodHeatmap`. -/
def generateMoodHeatmapDaily (entries : List Entry) : List MoodRow :=
  (groupFold (·.day) moodUpd ⟨0, 0, []⟩ entries).map (fun p => mkMoodRow p.1 p.2)

/-- The mood score of an entry under the heatmap lookup, when its mood
label is present in the lookup. -/
def entryMoodScore (e : Entry) : Option ℕ :=
  e.mood.bind (fun m => aGet m moodScores)

/-- The mood label of an entry, when present in the heatmap lookup. -/
def entryMappedMood (e : Entry) : Option String :=
  e.mood.bind (fun m => if (aGet m moodScores).isSome then some m else none)

/-- The heatmap-lookup scores of day `d`'s entries whose mood label is in
the lookup. -/
def mappedMoodScores (entries : List Entry) (d : ℤ) : List ℕ :=
  (entries.filter (fun e => e.day = d)).filterMap entryMoodScore

/-! ## Heatmap route: sentiment view (daily block)

`generateSentimentHeatmap` also produces a weekly trend and a summary
block; the embedding covers the per-day block the claims are about. -/

/-- One `dayData` bucket of the sentiment heatmap. -/
structure SentBucket where
  positive : ℕ
  neutral : ℕ
  negative : ℕ
  total : ℕ
  deriving Repr, DecidableEq

/-- Per-entry update of a sentiment bucket.  The source increments
`dayData[dateKey][entry.sentiment]` for a non-null sentiment; the
branches model the four record keys (a sentiment equal to `"total"`
would hit the `total` counter a second time; any other string would
create an unrelated NaN property and leave these counters alone). -/
def sentUpd (e : Entry) (b : SentBucket) : SentBucket :=
  let b1 := { b with total := b.total + 1 }
  match e.sentiment with
  | none => b1
  | some s =>
    if s = "positive" then { b1 with positive := b1.positive + 1 }
    else if s = "neutral" then { b1 with neutral := b1.neutral + 1 }
    else if s = "negative" then { b1 with negative := b1.negative + 1 }
    else if s = "total" then { b1 with total := b1.total + 1 }
    else b1

/-- One row of the daily sentiment heatmap (`posPct` is the source's
rounded per-day positive percentage). -/
structure SentRow where
  date : ℤ
  positive : ℕ
  neutral : ℕ
  negative : ℕ
  total : ℕ
  dominantSentiment : String
  posPct : ℤ
  color : String
  deriving Repr, DecidableEq

/-- Build one daily sentiment row from a bucket. -/
def mkSentRow (d : ℤ) (b : SentBucket) : SentRow :=
  { date := d
    positive := b.positive
    neutral := b.neutral
    negative := b.negative
    total := b.total
    dominantSentiment :=
      if b.positive > b.negative ∧ b.positive > b.neutral then "positive"
      else if b.negative > b.neutral then "negative"
      else "neutral"
    posPct := jsRound ((b.positive : ℚ) / (b.total : ℚ) * 100)
    color :=
      if b.positive > b.negative ∧ b.positive > b.neutral then "#22c55e"
      else if b.negative > b.neutral then "#ef4444"
      else "#6b7280" }

/-- The `daily` block of `generateSentimentHeatmap`. -/
def generateSentimentHeatmapDaily (entries : List Entry) : List SentRow :=
  (groupFold (·.day) sentUpd ⟨0, 0, 0, 0⟩ entries).map (fun p => mkSentRow p.1 p.2)

/-- Number of entries in `fs` carrying sentiment `s`. -/
def sentCount (s : String) (fs : List Entry) : ℕ :=
  fs.countP (fun e => e.sentiment = some s)

/-- Entry list used by the C2 counterexample: day 0 has two positive and
two negative entries (a positive/negative tie beating neutral), day 1
has one neutral and one negative entry (a negative/neutral tie). -/
def demoSentEntries : List Entry :=
  [{ day := 0, sentiment := some "positive" },
   { day := 0, sentiment := some "positive" },
   { day := 0, sentiment := some "negative" },
   { day := 0, sentiment := some "negative" },
   { day := 1, sentiment := some "neutral" },
   { day := 1, sentiment := some "negative" }]

/-! ## Stats route: trend aggregation (`groupEntriesByPeriod`) -/

/-- The `moodToScore` lookup of the stats route. -/
def moodToScore : List (String × ℕ) :=
  [("happy", 5), ("great", 5), ("amazing", 5), ("energized", 4), ("good", 4),
   ("relaxed", 3), ("neutral", 3), ("tired", 2), ("stressed", 2), ("sad", 1), ("bad", 1)]

/-- Bucket key: `"week"` → the day of that week's Sunday, `"month"` → the
month index, anything else (the `day` default) → the day index.  The
source keys buckets by ISO-date / `YYYY-MM` strings whose lexicographic
order agrees with this numeric order. -/
def groupKey (groupBy : String) (e : Entry) : ℤ :=
  if groupBy = "week" then e.day - e.day % 7
  else if groupBy = "month" then e.monthIdx
  else e.day

/-- One accumulating trend bucket. -/
structure TrendAcc where
  count : ℕ
  totalQuantity : ℚ
  activities : List (String × ℕ)
  avgMood : ℚ
  moodCounts : List (String × ℕ)
  deriving Repr, DecidableEq

/-- Per-entry bucket update of `groupEntriesByPeriod`.  `count` is
incremented for **every** entry; the running `avgMood` update divides by
that total count, and fires only for entries with a (truthy) mood, using
`moodToScore[mood] || 3`. -/
def trendUpd (e : Entry) (b : TrendAcc) : TrendAcc :=
  let b1 := { b with count := b.count + 1 }
  let b2 :=
    match e.quantity with
    | some q => { b1 with totalQuantity := b1.totalQuantity + q }
    | none => b1
  let b3 :=
    match e.activity with
    | some a => if a = "" then b2 else { b2 with activities := upsert a (· + 1) 0 b2.activities }
    | none => b2
  match e.mood with
  | some m =>
    if m = "" then b3
    else
      let score : ℚ := (((aGet m moodToScore).getD 3 : ℕ) : ℚ)
      { b3 with
        moodCounts := upsert m (· + 1) 0 b3.moodCounts
        avgMood := (b3.avgMood * ((b3.count : ℚ) - 1) + score) / (b3.count : ℚ) }
  | none => b3

/-- One trend bucket as returned (the bucket plus its `date` key). -/
structure TrendRow where
  date : ℤ
  count : ℕ
  totalQuantity : ℚ
  activities : List (String × ℕ)
  avgMood : ℚ
  moodCounts : List (String × ℕ)
  deriving Repr, DecidableEq

/-- Attach the bucket key as the row's `date`. -/
def mkTrendRow (d : ℤ) (b : TrendAcc) : TrendRow :=
  ⟨d, b.count, b.totalQuantity, b.activities, b.avgMood, b.moodCounts⟩

/-- `groupEntriesByPeriod` from the stats route: group, then sort
ascending by bucket key. -/
def groupEntriesByPeriod (entries : List Entry) (groupBy : String) : List TrendRow :=
  ((groupFold (groupKey groupBy) trendUpd ⟨0, 0, [], 0, []⟩ entries).map
    (fun p => mkTrendRow p.1 p.2)).mergeSort (fun x y => decide (x.date ≤ y.date))

/-- The stats-route mood score of an entry (`moodToScore[mood] || 3`),
defined for entries with a truthy mood. -/
def trendMoodScore (e : Entry) : Option ℕ :=
  match e.mood with
  | some m => if m = "" then none else some ((aGet m moodToScore).getD 3)
  | none => none

/-- Entry list for the C4 counterexample: one mood-less entry followed by
one `"happy"` entry on the same day. -/
def demoTrendEntries : List Entry :=
  [{ day := 0 }, { day := 0, mood := some "happy" }]

/-- A single `"happy"` entry, used by the C4 witness. -/
def demoHappy : Entry := { day := 0, mood := some "happy" }

/-! ## Stats route: streak calculation (`calculateStreaks`) -/

/-- JS `Set.prototype.add`: append the element unless present. -/
def addSet [DecidableEq α] (s : List α) (a : α) : List α :=
  if a ∈ s then s else s ++ [a]

/-- Distinct calendar days carrying at least one entry. -/
def entryDays (entries : List Entry) : List ℤ :=
  uniqFirst (entries.map (·.day))

/-- The current-streak walk: for `i = 0, 1, ...` (the loop is bounded by
the number of distinct days) count while day `today − i` is present,
stopping at the first missing day. -/
def streakLoop (dates : List ℤ) : ℤ → ℕ → ℕ
  | _, 0 => 0
  | d, fuel + 1 => if d ∈ dates then streakLoop dates (d - 1) fuel + 1 else 0

/-- The longest-streak scan over the descending distinct-date list:
`prev` is the previous date, `temp` the current run length, `best` the
maximum run seen. -/
def longestLoop : ℤ → ℕ → ℕ → List ℤ → ℕ
  | _, _, best, [] => best
  | prev, temp, best, d :: t =>
    let temp' := if prev - d = 1 then temp + 1 else 1
    longestLoop d temp' (max best temp') t

/-- Longest streak of a descending distinct-date list. -/
def longestStreakOf (dates : List ℤ) : ℕ :=
  match dates with
  | [] => 0
  | d :: t => longestLoop d 1 1 t

/-- Return value of `calculateStreaks`. -/
structure Streaks where
  current : ℕ
  longest : ℕ
  totalDays : ℕ
  deriving Repr, DecidableEq

/-- `calculateStreaks` from the stats route: distinct entry days sorted
descending, a walk from `today` for the current streak, and a
consecutive-run scan for the longest streak. -/
def calculateStreaks (entries : List Entry) (today : ℤ) : Streaks :=
  let dates := (entryDays entries).mergeSort (fun x y => decide (y ≤ x))
  { current := streakLoop dates today dates.length
    longest := longestStreakOf dates
    totalDays := dates.length }

/-! ## Gamification route: stats recompute (`recalculateStats`) -/

/-- The fixed `POINTS_CONFIG` table. -/
structure PointsConfig where
  positiveHabit : ℤ
  negativeBehavior : ℤ
  streak : ℤ
  goalComplete : ℤ
  firstOfDay : ℤ
  deriving Repr, DecidableEq

/-- `POINTS_CONFIG` from the gamification route (`firstOfDay` is defined
but never consulted by `recalculateStats`). -/
def POINTS_CONFIG : PointsConfig :=
  { positiveHabit := 10, negativeBehavior := -5, streak := 5, goalComplete := 50,
    firstOfDay := 15 }

/-- `entry.type?.includes('positive')`. -/
def typeHasPositive (e : Entry) : Bool :=
  match e.type with
  | some t => strIncludes t "positive"
  | none => false

/-- `entry.type?.includes('negative')`. -/
def typeHasNegative (e : Entry) : Bool :=
  match e.type with
  | some t => strIncludes t "negative"
  | none => false

/-- Accumulator of the `entries.forEach` loop in `recalculateStats`. -/
structure StatsAcc where
  totalPoints : ℤ
  positiveCount : ℕ
  negativeCount : ℕ
  dates : List ℤ
  activities : List String
  categories : List String
  moodEntries : ℕ
  morningEntries : ℕ
  eveningEntries : ℕ
  deriving Repr, DecidableEq

/-- One iteration of the `recalculateStats` entry loop, written
field-wise: points and positive/negative counts follow the
`positive` / `negative` / other if-chain on `entry.type`; the
activity/category/date sets grow; the mood and before-8am / from-9pm
counters bump on their (truthy) conditions. -/
def statsUpd (e : Entry) (s : StatsAcc) : StatsAcc :=
  { totalPoints := s.totalPoints +
      (if typeHasPositive e then POINTS_CONFIG.positiveHabit
       else if typeHasNegative e then POINTS_CONFIG.negativeBehavior
       else 5)
    positiveCount := s.positiveCount + (if typeHasPositive e then 1 else 0)
    negativeCount := s.negativeCount +
      (if typeHasPositive e then 0 else if typeHasNegative e then 1 else 0)
    dates := addSet s.dates e.day
    activities :=
      match e.activity with
      | some a => if a = "" then s.activities else addSet s.activities a
      | none => s.activities
    categories :=
      match e.category with
      | some c => if c = "" then s.categories else addSet s.categories c
      | none => s.categories
    moodEntries := s.moodEntries +
      (match e.mood with
       | some m => if m = "" then 0 else 1
       | none => 0)
    morningEntries := s.morningEntries + (if e.hour < 8 then 1 else 0)
    eveningEntries := s.eveningEntries + (if e.hour ≥ 21 then 1 else 0) }

/-- The stats record produced by `recalculateStats` (profile fields plus
the derived counters handed to the badge check). -/
structure RecalcStats where
  totalPoints : ℤ
  currentStreak : ℕ
  longestStreak : ℕ
  totalEntries : ℕ
  positiveCount : ℕ
  negativeCount : ℕ
  uniqueActivities : ℕ
  categories : ℕ
  moodEntries : ℕ
  morningEntries : ℕ
  eveningEntries : ℕ
  goalsCompleted : ℕ
  deriving Repr, DecidableEq

/-- `recalculateStats` from the gamification route: fold the entry loop,
add 50 per currently-complete goal, walk the streak from today over the
distinct entry dates (sorted descending, loop bounded by their number),
add 5 per streak day, and max `longestStreak` against its prior stored
value. -/
def recalculateStats (entries : List Entry) (goals : List Goal) (today : ℤ)
    (priorLongest : ℕ) : RecalcStats :=
  let acc := applyAll statsUpd entries ⟨0, 0, 0, [], [], [], 0, 0, 0⟩
  let completedGoals := goals.filter (fun g => g.currentValue ≥ g.targetValue)
  let sortedDates := acc.dates.mergeSort (fun x y => decide (y ≤ x))
  let currentStreak := streakLoop sortedDates today sortedDates.length
  { totalPoints := acc.totalPoints +
      (completedGoals.length : ℤ) * POINTS_CONFIG.goalComplete +
      (currentStreak : ℤ) * POINTS_CONFIG.streak
    currentStreak := currentStreak
    longestStreak := max currentStreak priorLongest
    totalEntries := entries.length
    positiveCount := acc.positiveCount
    negativeCount := acc.negativeCount
    uniqueActivities := acc.activities.length
    categories := acc.categories.length
    moodEntries := acc.moodEntries
    morningEntries := acc.morningEntries
    eveningEntries := acc.eveningEntries
    goalsCompleted := completedGoals.length }

/-! ## Gamification route: badge check (`checkForNewBadges`) -/

/-- A badge `requirement` record; each badge sets only some keys.  The
source's `positiveRatio` key (0.9 on Iron Will) is `posShare` here. -/
structure BadgeReq where
  entries : Option ℕ := none
  streak : Option ℕ := none
  goalsCompleted : Option ℕ := none
  moodEntries : Option ℕ := none
  morningEntries : Option ℕ := none
  eveningEntries : Option ℕ := none
  uniqueActivities : Option ℕ := none
  positiveCount : Option ℕ := none
  categories : Option ℕ := none
  insightsViewed : Option ℕ := none
  streakSaved : Option ℕ := none
  posShare : Option ℚ := none
  days : Option ℕ := none
  deriving Repr, DecidableEq

/-- One row of the `BADGES` catalogue. -/
structure BadgeDef where
  id : String
  name : String
  description : String
  icon : String
  requirement : BadgeReq
  deriving Repr, DecidableEq

/-- The fixed `BADGES` catalogue. -/
def BADGES : List BadgeDef :=
  [⟨"first-step", "First Step", "Log your first habit", "🎯", { entries := some 1 }⟩,
   ⟨"week-warrior", "Week Warrior", "7-day streak", "🔥", { streak := some 7 }⟩,
   ⟨"two-week-champion", "Two Week Champion", "14-day streak", "💪", { streak := some 14 }⟩,
   ⟨"month-master", "Month Master", "30-day streak", "👑", { streak := some 30 }⟩,
   ⟨"hundred-club", "100 Club", "Log 100 habits", "💯", { entries := some 100 }⟩,
   ⟨"goal-crusher", "Goal Crusher", "Complete your first goal", "🏆",
     { goalsCompleted := some 1 }⟩,
   ⟨"mood-tracker", "Mood Tracker", "Log 10 entries with mood", "😊",
     { moodEntries := some 10 }⟩,
   ⟨"early-bird", "Early Bird", "Log 5 morning habits (before 8am)", "🌅",
     { morningEntries := some 5 }⟩,
   ⟨"night-owl", "Night Owl", "Log 5 evening habits (after 9pm)", "🦉",
     { eveningEntries := some 5 }⟩,
   ⟨"variety-king", "Variety King", "Log 10 different activities", "🎭",
     { uniqueActivities := some 10 }⟩,
   ⟨"positive-vibes", "Positive Vibes", "Log 20 positive habits", "✨",
     { positiveCount := some 20 }⟩,
   ⟨"insight-seeker", "Insight Seeker", "View AI insights 10 times", "🔍",
     { insightsViewed := some 10 }⟩,
   ⟨"streak-saver", "Streak Saver", "Log a habit when streak was at risk", "🛡️",
     { streakSaved := some 1 }⟩,
   ⟨"triple-threat", "Triple Threat", "Log 3 different categories", "🎪",
     { categories := some 3 }⟩,
   ⟨"iron-will", "Iron Will", "Maintain 90% positive habits for a week", "🧲",
     { posShare := some (9/10), days := some 7 }⟩]

/-- One gate of the badge check:
`badge.requirement.key && stats.value >= badge.requirement.key`
(a requirement number of 0 would be falsy and skip the test). -/
def reqTest (o : Option ℕ) (v : ℕ) : Bool :=
  match o with
  | some n => if n = 0 then false else decide (v ≥ n)
  | none => false

/-- JS truthiness of an optional requirement number. -/
def reqTruthy (o : Option ℕ) : Bool :=
  match o with
  | some n => decide (n ≠ 0)
  | none => false

/-- The nine threshold tests `checkForNewBadges` runs; the
`insightsViewed`, `streakSaved`, `posShare` and `days` keys are never
consulted. -/
def earnedB (b : BadgeDef) (s : RecalcStats) : Bool :=
  reqTest b.requirement.entries s.totalEntries ||
  reqTest b.requirement.streak s.currentStreak ||
  reqTest b.requirement.goalsCompleted s.goalsCompleted ||
  reqTest b.requirement.moodEntries s.moodEntries ||
  reqTest b.requirement.morningEntries s.morningEntries ||
  reqTest b.requirement.eveningEntries s.eveningEntries ||
  reqTest b.requirement.uniqueActivities s.uniqueActivities ||
  reqTest b.requirement.positiveCount s.positiveCount ||
  reqTest b.requirement.categories s.categories

/-- Category stored on a created badge record. -/
def badgeCategory (r : BadgeReq) : String :=
  if reqTruthy r.streak then "streak"
  else if reqTruthy r.entries then "consistency"
  else if reqTruthy r.goalsCompleted then "achievement"
  else "special"

/-- A created badge row (the serialized requirement is kept structured;
`userId` and timestamps are store-assigned). -/
structure NewBadge where
  name : String
  description : String
  icon : String
  category : String
  requirement : BadgeReq
  deriving Repr, DecidableEq

/-- `checkForNewBadges`: walk the catalogue, skip badges whose name is
already earned, create a badge row for each newly satisfied test. -/
def checkForNewBadges (existingNames : List String) (s : RecalcStats) : List NewBadge :=
  BADGES.filterMap (fun b =>
    if b.name ∈ existingNames then none
    else if earnedB b s then
      some { name := b.name, description := b.description, icon := b.icon,
             category := badgeCategory b.requirement, requirement := b.requirement }
    else none)

/-- Stats with a single entry and nothing else, used by the C10 witness. -/
def demoStats : RecalcStats :=
  { totalPoints := 0, currentStreak := 0, longestStreak := 0, totalEntries := 1,
    positiveCount := 0, negativeCount := 0, uniqueActivities := 0, categories := 0,
    moodEntries := 0, morningEntries := 0, eveningEntries := 0, goalsCompleted := 0 }

/-! ## Parse route: deterministic fallback classifier

`enhancedFallbackParse` and the inference helpers it calls.  The
oracle-assisted `parseHabitText` path wraps an external language-model
call and is out of scope; its failure handler returns exactly
`enhancedFallbackParse text`. -/

/-- The record the fallback classifier returns (the TS `ParsedHabit`
with the fields the fallback actually populates). -/
structure ParsedHabit where
  activity : String
  category : String
  quantity : Option ℚ
  unit : Option String
  mood : Option String
  sentiment : String
  notes : Option String
  tags : List String
  type : String
  trigger : Option String
  deriving Repr, DecidableEq

/-- One row of the fallback `behaviorPatterns` table. -/
structure BehaviorRule where
  patterns : List String
  activity : String
  type : String
  category : String
  moodHint : Option String := none
  sentiment : String
  deriving Repr, DecidableEq

/-- The ordered `behaviorPatterns` table (first matching row wins). -/
def behaviorPatterns : List BehaviorRule :=
  [⟨["skip school", "skipped school", "don\x27t go to school", "miss school",
     "missed school"], "skip school", "negative behavior", "education", some "guilty",
     "negative"⟩,
   ⟨["skip work", "skipped work", "miss work", "missed work", "didn\x27t go to work"],
     "skip work", "negative behavior", "work", some "guilty", "negative"⟩,
   ⟨["skip class", "skipped class", "miss class"],
     "skip class", "negative behavior", "education", some "guilty", "negative"⟩,
   ⟨["procrastinate", "procrastinated", "putting off", "avoiding work", "didn\x27t do"],
     "procrastinate", "negative behavior", "productivity", some "frustrated", "negative"⟩,
   ⟨["stayed up", "stay up", "up all night", "couldn\x27t sleep", "insomnia"],
     "sleep late", "negative behavior", "sleep", some "tired", "negative"⟩,
   ⟨["oversleep", "overslept", "slept in", "slept through"],
     "oversleep", "negative behavior", "sleep", some "groggy", "negative"⟩,
   ⟨["doom scroll", "doom scrolling", "scrolling all night"],
     "doom scroll", "negative behavior", "habits", some "regretful", "negative"⟩,
   ⟨["binge eat", "binge eating", "overeat", "ate too much", "stuff myself"],
     "binge eat", "negative behavior", "nutrition", some "disgusted", "negative"⟩,
   ⟨["skip meal", "skipped meal", "didn\x27t eat", "forgot to eat"],
     "skip meal", "negative behavior", "nutrition", some "tired", "negative"⟩,
   ⟨["argue", "argument", "argued with", "fight with", "fought with"],
     "argue", "negative behavior", "relationships", some "angry", "negative"⟩,
   ⟨["ghost", "ghosted", "ignore", "ignored"],
     "ignore someone", "negative behavior", "relationships", some "guilty", "negative"⟩,
   ⟨["yell", "yelled", "shout", "shouted", "scream", "screamed"],
     "yell", "negative behavior", "relationships", some "angry", "negative"⟩,
   ⟨["smoke", "smoked", "had a cigarette", "vape"],
     "smoke", "negative behavior", "health", some "guilty", "negative"⟩,
   ⟨["drink too much", "got drunk", "binge drink", "hungover"],
     "drink alcohol", "negative behavior", "health", some "regretful", "negative"⟩,
   ⟨["panic attack", "anxiety attack", "panic"],
     "panic attack", "emotional event", "mental health", some "anxious", "negative"⟩,
   ⟨["cry", "cried", "crying", "breakdown"],
     "cry", "emotional event", "mental health", some "sad", "negative"⟩,
   ⟨["depressed", "depression", "hopeless"],
     "feel depressed", "emotional event", "mental health", some "sad", "negative"⟩,
   ⟨["mom mad", "mom angry", "mom yelled", "mother angry", "mastiffs on me",
     "parent angry", "parents mad"],
     "family conflict", "negative behavior", "family", some "stressed", "negative"⟩,
   ⟨["dad mad", "dad angry", "father angry", "father mad"],
     "family conflict", "negative behavior", "family", some "stressed", "negative"⟩,
   ⟨["grounded", "in trouble", "got in trouble"],
     "get in trouble", "emotional event", "family", some "stressed", "negative"⟩,
   ⟨["ran", "run", "running", "jog", "jogging"],
     "run", "positive habit", "exercise", none, "positive"⟩,
   ⟨["walk", "walking", "walked"], "walk", "positive habit", "exercise", none, "positive"⟩,
   ⟨["swim", "swam", "swimming"], "swim", "positive habit", "exercise", none, "positive"⟩,
   ⟨["gym", "workout", "work out", "exercised", "lift weights"],
     "workout", "positive habit", "exercise", none, "positive"⟩,
   ⟨["yoga", "stretching", "stretched"],
     "yoga", "positive habit", "mindfulness", none, "positive"⟩,
   ⟨["meditat", "mindful", "meditation"],
     "meditate", "positive habit", "mindfulness", none, "positive"⟩,
   ⟨["journal", "wrote in journal", "journaling"],
     "journal", "positive habit", "self care", none, "positive"⟩,
   ⟨["read", "reading", "studied", "study"],
     "read", "positive habit", "productivity", none, "positive"⟩,
   ⟨["finish", "finished", "completed", "complete"],
     "complete task", "positive habit", "productivity", none, "positive"⟩,
   ⟨["clean", "cleaned", "tidy", "organized"],
     "clean", "positive habit", "personal growth", none, "positive"⟩,
   ⟨["sleep", "slept", "nap", "napped"],
     "sleep", "positive habit", "sleep", none, "neutral"⟩,
   ⟨["water", "drank water", "hydration", "hydrated"],
     "drink water", "positive habit", "hydration", none, "positive"⟩,
   ⟨["eat", "ate", "food", "meal", "salad", "lunch", "dinner", "breakfast"],
     "eat", "positive habit", "nutrition", none, "neutral"⟩]

/-- One row of the fallback trigger table. -/
structure TriggerRule where
  patterns : List String
  trigger : String
  deriving Repr, DecidableEq

/-- The ordered `triggerPatterns` table (first matching row wins). -/
def triggerPatterns : List TriggerRule :=
  [⟨["mom", "mother", "mom angry", "mom mad", "mastiffs on me"], "mom upset"⟩,
   ⟨["dad", "father"], "dad upset"⟩,
   ⟨["because", "cause", "since"], "stated reason"⟩,
   ⟨["deadline", "due"], "deadline pressure"⟩,
   ⟨["tired", "exhausted", "no energy"], "fatigue"⟩,
   ⟨["stressed", "anxious", "worried"], "stress"⟩,
   ⟨["bored", "boring"], "boredom"⟩]

/-- One row of the `inferMoodFromText` table. -/
structure MoodPattern where
  moods : List String
  patterns : List String
  deriving Repr, DecidableEq

/-- The ordered `moodPatterns` table. -/
def moodPatterns : List MoodPattern :=
  [⟨["happy", "great", "amazing"],
    ["happy", "great", "amazing", "wonderful", "fantastic", "awesome", "excited", "joy"]⟩,
   ⟨["proud", "accomplished"],
    ["proud", "accomplished", "achieved", "success", "finally", "finished"]⟩,
   ⟨["calm", "relaxed"], ["calm", "relaxed", "peaceful", "serene", "chill", "zen"]⟩,
   ⟨["energized", "motivated"],
    ["energized", "energetic", "motivated", "pumped", "ready"]⟩,
   ⟨["guilty", "ashamed"],
    ["guilty", "ashamed", "shouldn\x27t", "bad about", "regret", "mastiffs on me",
     "mad at me", "angry at me"]⟩,
   ⟨["stressed", "anxious"],
    ["stressed", "anxious", "worried", "overwhelmed", "nervous", "pressure"]⟩,
   ⟨["sad", "depressed"],
    ["sad", "depressed", "down", "hopeless", "crying", "cry", "tears"]⟩,
   ⟨["angry", "frustrated"],
    ["angry", "frustrated", "mad", "furious", "annoyed", "irritated"]⟩,
   ⟨["tired", "exhausted"], ["tired", "exhausted", "drained", "sleepy", "fatigue"]⟩,
   ⟨["disgusted", "disappointed"],
    ["disgusting", "disgusted", "disappointed", "failure", "gross"]⟩]

/-- `inferMoodFromText`: first mood group with a substring hit wins,
returning its first canonical mood; default `"neutral"` (every table row
has a nonempty mood list, so `headD` equals the source's `moods[0]`). -/
def inferMoodFromText (text : String) : String :=
  let lower := lowerStr text
  match moodPatterns.find? (fun mp => mp.patterns.any (fun p => strIncludes lower p)) with
  | some mp => mp.moods.headD "neutral"
  | none => "neutral"

/-- The fixed positive-word list of `inferSentimentFromText`. -/
def positiveWords : List String :=
  ["happy", "great", "good", "amazing", "wonderful", "proud", "accomplished",
   "excited", "love", "enjoy", "finally", "success", "achieved", "feel good",
   "feels good"]

/-- The fixed negative-word list of `inferSentimentFromText`. -/
def negativeWords : List String :=
  ["bad", "sad", "angry", "mad", "stressed", "anxious", "worried", "guilty",
   "ashamed", "fail", "failure", "disgusting", "hate", "terrible", "awful",
   "horrible", "mastiffs on me", "conflict", "argue", "skip", "procrastinate",
   "panic", "cry"]

/-- `inferSentimentFromText`: count substring hits against both word
lists; strictly more negative hits → `"negative"`, strictly more
positive hits → `"positive"`, tie → `"neutral"`. -/
def inferSentimentFromText (text : String) : String :=
  let lower := lowerStr text
  let positiveCount := (positiveWords.filter (fun w => strIncludes lower w)).length
  let negativeCount := (negativeWords.filter (fun w => strIncludes lower w)).length
  if negativeCount > positiveCount then "negative"
  else if positiveCount > negativeCount then "positive"
  else "neutral"

/-- `extractTags`: independent boolean checks, each contributing its tag
in check order. -/
def extractTags (text : String) : List String :=
  let lower := lowerStr text
  (if strIncludes lower "morning" then ["morning"] else []) ++
  (if strIncludes lower "afternoon" then ["afternoon"] else []) ++
  (if strIncludes lower "evening" || strIncludes lower "night" then ["evening"] else []) ++
  (if strIncludes lower "today" then ["today"] else []) ++
  (if strIncludes lower "yesterday" then ["yesterday"] else []) ++
  (if strIncludes lower "weekend" then ["weekend"] else []) ++
  (if strIncludes lower "home" then ["home"] else []) ++
  (if strIncludes lower "school" then ["school"] else []) ++
  (if strIncludes lower "work" then ["work"] else []) ++
  (if strIncludes lower "gym" then ["gym"] else []) ++
  (if strIncludes lower "outdoor" || strIncludes lower "outside" then ["outdoor"] else []) ++
  (if strIncludes lower "alone" || strIncludes lower "by myself" then ["alone"] else []) ++
  (if strIncludes lower "family" || strIncludes lower "mom" || strIncludes lower "dad"
    then ["family"] else []) ++
  (if strIncludes lower "friend" then ["friends"] else []) ++
  (if strIncludes lower "group" then ["group"] else []) ++
  (if strIncludes lower "recurring" || strIncludes lower "again" || strIncludes lower "still"
    then ["recurring"] else []) ++
  (if strIncludes lower "first time" || strIncludes lower "finally"
    then ["milestone"] else [])

/-- Maximal leading digit run of a character list. -/
def parseDigits : List Char → List Char × List Char
  | c :: t =>
    if c.isDigit then
      let (ds, r) := parseDigits t
      (c :: ds, r)
    else ([], c :: t)
  | [] => ([], [])

/-- Digit run to a natural number. -/
def natOfDigits (ds : List Char) : ℕ :=
  ds.foldl (fun n c => n * 10 + (c.toNat - 48)) 0

/-- `parseFloat` of an integer part and a fractional digit run. -/
def ratOfDigits (ds frac : List Char) : ℚ :=
  (natOfDigits ds : ℚ) + (natOfDigits frac : ℚ) / ((10 : ℚ) ^ frac.length)

/-- The unit alternation of the quantity regex, flattened into the try
order the regex engine uses (each `Xs?` alternative greedily tries `Xs`
then `X`; `"miles"` is unreachable after `"mi"` but kept for fidelity). -/
def unitAlternatives : List String :=
  ["km", "mi", "miles", "minutes", "minute", "mins", "min", "hours", "hour",
   "hrs", "hr", "pages", "page", "glasses", "glasse", "times", "time", "reps",
   "rep", "sets", "set", "cups", "cup", "days", "day", "weeks", "week"]

/-- Match the quantity regex at one start position: a digit run, an
optional fractional part, optional whitespace, then the first matching
unit alternative. -/
def matchQuantAt (cs : List Char) : Option (ℚ × String) :=
  let (ds, r1) := parseDigits cs
  if ds = [] then none
  else
    let fr :=
      match r1 with
      | '.' :: t =>
        let (fds, rr) := parseDigits t
        if fds = [] then ([], r1) else (fds, rr)
      | _ => ([], r1)
    let r3 := fr.2.dropWhile (fun c => c = ' ' || c = '\t' || c = '\n' || c = '\r')
    match unitAlternatives.find? (fun u => u.toList.isPrefixOf r3) with
    | some u => some (ratOfDigits ds fr.1, u)
    | none => none

/-- Leftmost match of the quantity regex. -/
def scanQuant : List Char → Option (ℚ × String)
  | [] => none
  | c :: t =>
    match matchQuantAt (c :: t) with
    | some r => some r
    | none => scanQuant t

/-- Unit canonicalization (`min`/`mins` → minutes, `hr`/`hrs` → hours,
`mi` → miles). -/
def canonUnit (u : String) : String :=
  if u = "min" || u = "mins" then "minutes"
  else if u = "hr" || u = "hrs" then "hours"
  else if u = "mi" then "miles"
  else u

/-- `enhancedFallbackParse`: the deterministic fallback classifier. -/
def enhancedFallbackParse (text : String) : ParsedHabit :=
  let lowerText := lowerStr text
  let matched := behaviorPatterns.find?
    (fun r => r.patterns.any (fun p => strIncludes lowerText p))
  let detectedActivity :=
    match matched with
    | some r => r.activity
    | none => "unspecified activity"
  let detectedType :=
    match matched with
    | some r => r.type
    | none => "neutral activity"
  let detectedCategory :=
    match matched with
    | some r => r.category
    | none => "habits"
  let detectedMoodHint : Option String :=
    match matched with
    | some r => r.moodHint
    | none => none
  let detectedSentiment0 :=
    match matched with
    | some r => r.sentiment
    | none => "neutral"
  let detectedTrigger : Option String :=
    match triggerPatterns.find? (fun tp => tp.patterns.any (fun p => strIncludes lowerText p)) with
    | some tp => some tp.trigger
    | none => none
  let qu := scanQuant lowerText.toList
  let detectedMood :=
    match detectedMoodHint with
    | some m => m
    | none => inferMoodFromText text
  let detectedSentiment :=
    if detectedSentiment0 = "neutral" then inferSentimentFromText text
    else detectedSentiment0
  { activity := detectedActivity
    category := detectedCategory
    quantity := qu.map Prod.fst
    unit := qu.map (fun p => canonUnit p.2)
    mood := if detectedMood = "" then none else some detectedMood
    sentiment := detectedSentiment
    notes :=
      match detectedTrigger with
      | some t => some ("Trigger: " ++ t)
      | none => none
    tags := extractTags text
    type := detectedType
    trigger := detectedTrigger }

/-! ## Habits route: entry creation (`POST`) and `updateGoalProgress`

Store failures are modelled by an injectable failure schedule:
`createFails` makes the entry insert throw (caught by the route's outer
handler, a 500 response), `findFails` makes the goal query inside
`updateGoalProgress` throw, and `updFails g.id` makes the db operations
of goal `g`'s loop iteration throw.  `updateGoalProgress` wraps its
whole body in try/catch, so a thrown iteration keeps the mutations made
so far and returns normally. -/

/-- The current wall-clock position (day index and month index). -/
structure Now where
  day : ℤ
  monthIdx : ℤ
  deriving Repr, DecidableEq

/-- The JSON body of the entry-creation request. -/
structure PostBody where
  rawText : String
  activity : String
  type : Option String := none
  category : Option String := none
  quantity : Option ℚ := none
  unit : Option String := none
  mood : Option String := none
  sentiment : Option String := none
  trigger : Option String := none
  notes : Option String := none
  tags : Option (List String) := none
  date : Option Now := none
  deriving Repr, DecidableEq

/-- The persistent store visible to the habits route. -/
structure DB where
  entries : List Entry
  goals : List Goal
  deriving Repr, DecidableEq

/-- `x || null` on an optional string field (an empty string is falsy
and stored as null). -/
def orNull (o : Option String) : Option String :=
  match o with
  | some s => if s = "" then none else some s
  | none => none

/-- JS truthiness of the optional quantity (`0` is falsy). -/
def quantTruthy (q : Option ℚ) : Bool :=
  match q with
  | some q => decide (q ≠ 0)
  | none => false

/-- The stored record built by `db.habitEntry.create` (tags are kept
structured rather than JSON-serialized). -/
def mkEntry (body : PostBody) (now : Now) : Entry :=
  { day := (body.date.getD now).day
    monthIdx := (body.date.getD now).monthIdx
    rawText := body.rawText
    activity := some body.activity
    type := orNull body.type
    category := orNull body.category
    quantity :=
      match body.quantity with
      | some q => if q = 0 then none else some q
      | none => none
    unit := orNull body.unit
    mood := orNull body.mood
    sentiment := orNull body.sentiment
    trigger := orNull body.trigger
    notes := orNull body.notes
    tags := body.tags }

/-- The goal-period window anchored at now (`daily` today, `weekly` the
Sunday-anchored 7-day window, `monthly` the calendar month); an unknown
period yields `none` and its goal is skipped (`continue`). -/
def periodPred (now : Now) (period : String) : Option (Entry → Bool)  :=
  if period = "daily" then some (fun e => decide (e.day = now.day))
  else if period = "weekly" then
    some (fun e => decide (now.day - now.day % 7 ≤ e.day ∧ e.day ≤ now.day - now.day % 7 + 6))
  else if period = "monthly" then some (fun e => decide (e.monthIdx = now.monthIdx))
  else none

/-- The goal query of `updateGoalProgress`: active goals whose activity
contains the new entry's activity (case-insensitive). -/
def goalMatches (entryActivity : String) (g : Goal) : Bool :=
  strIncludes (lowerStr g.activity) (lowerStr entryActivity) && g.isActive

/-- The entry query inside the goal loop: stored entries whose activity
contains the new entry's activity (case-insensitive) and whose date
falls in the period window. -/
def entryMatchesQuery (entryActivity : String) (pred : Entry → Bool) (e : Entry) : Bool :=
  (match e.activity with
   | some a => strIncludes (lowerStr a) (lowerStr entryActivity)
   | none => false) && pred e

/-- The goal loop of `updateGoalProgress`: recompute each matching
goal's period total and overwrite `currentValue`; a throwing iteration
(`updFails`) aborts the loop, keeping earlier updates. -/
def runGoalUpdates (updFails : ℕ → Bool) (now : Now) (act : String) :
    DB → List Goal → DB
  | db, [] => db
  | db, g :: rest =>
    match periodPred now g.period with
    | none => runGoalUpdates updFails now act db rest
    | some pred =>
      if updFails g.id then db
      else
        let matched := db.entries.filter (fun e => entryMatchesQuery act pred e)
        let total := (matched.map (fun e => e.quantity.getD 0)).sum
        runGoalUpdates updFails now act
          { db with goals :=
              db.goals.map (fun g2 =>
                if g2.id = g.id then { g2 with currentValue := total } else g2) }
          rest

/-- `updateGoalProgress`: its body is wrapped in try/catch, so every
failure is swallowed (logged) and the function always returns a store
state — never an exception.  The `quantity` argument is accepted but
never read, as in the source. -/
def updateGoalProgress (findFails : Bool) (updFails : ℕ → Bool) (now : Now)
    (activity : String) (quantity : ℚ) (db : DB) : DB :=
  if findFails then db
  else runGoalUpdates updFails now activity db
    (db.goals.filter (fun g => goalMatches activity g))

/-- Outcome of the entry-creation request. -/
inductive PostResult where
  | badRequest : PostResult
  | ok : Entry → PostResult
  | serverError : PostResult
  deriving Repr, DecidableEq

/-- The habits-route `POST` handler: validate, persist the entry, then
run the goal update when a (truthy) quantity is present, and answer with
the stored record. -/
def POST (createFails findFails : Bool) (updFails : ℕ → Bool) (now : Now)
    (body : PostBody) (db : DB) : PostResult × DB :=
  if body.rawText = "" || body.activity = "" then (.badRequest, db)
  else if createFails then (.serverError, db)
  else
    let e := mkEntry body now
    let db1 := { db with entries := db.entries ++ [e] }
    let db2 :=
      if quantTruthy body.quantity && decide (body.activity ≠ "") then
        updateGoalProgress findFails updFails now body.activity
          (body.quantity.getD 0) db1
      else db1
    (.ok e, db2)

/-! ## Habit-stacks route: `generateStackingSuggestions`

The function is decomposed into the stages of the source pipeline:
trailing-window positive filter, day grouping, set-deduplication,
co-occurrence / per-activity day counting, suggestion emission,
stable sort by strength, unordered-pair dedup, top 5. -/

/-- JS string comparison (lexicographic on code units), as used by the
default array sort comparator. -/
def charListLt : List Char → List Char → Bool
  | [], [] => false
  | [], _ :: _ => true
  | _ :: _, [] => false
  | a :: as, b :: bs =>
    if a.toNat < b.toNat then true
    else if b.toNat < a.toNat then false
    else charListLt as bs

/-- `a < b` for JS strings. -/
def strLtJS (a b : String) : Bool := charListLt a.toList b.toList

/-- One emitted stacking suggestion (`strength` is the rounded percent). -/
structure Suggestion where
  triggerHabit : String
  linkedHabit : String
  strength : ℤ
  tip : String
  deriving Repr, DecidableEq

/-- Build one suggestion row. -/
def mkSuggestion (a b : String) (st : ℤ) : Suggestion :=
  { triggerHabit := a, linkedHabit := b, strength := st,
    tip := "After you \"" ++ a ++ "\", you often do \"" ++ b ++
      "\". Stack these for better consistency!" }

/-- Increment an insertion-ordered counter map
(`m[a] = (m[a] || 0) + 1` with JS key order). -/
def bumpCnt (m : List (String × ℕ)) (a : String) : List (String × ℕ) :=
  upsert a (· + 1) 0 m

/-- `coOccurrences[a][b]++`, creating missing keys at the end. -/
def coBump (m : List (String × List (String × ℕ))) (a b : String) :
    List (String × List (String × ℕ)) :=
  upsert a (fun inner => bumpCnt inner b) [] m

/-- The `i < j` pair loop over one day's unique activities: the head is
paired with each later element, both directions counted. -/
def dayPairs : List String → List (String × List (String × ℕ)) →
    List (String × List (String × ℕ))
  | [], m => m
  | a :: rest, m =>
    dayPairs rest (rest.foldl (fun m2 b => coBump (coBump m2 a b) b a) m)

/-- Process one day's activity list: dedupe to a set, bump each
activity's day count, and count all unordered pairs (both directions). -/
def processDay (st : List (String × List (String × ℕ)) × List (String × ℕ))
    (acts : List String) : List (String × List (String × ℕ)) × List (String × ℕ) :=
  let u := uniqFirst acts
  (dayPairs u st.1, u.foldl bumpCnt st.2)

/-- `activityCounts[x] || 1`. -/
def cntD (m : List (String × ℕ)) (a : String) : ℕ :=
  match aGet a m with
  | some n => if n = 0 then 1 else n
  | none => 1

/-- Symmetric co-occurrence count read out of the nested map. -/
def coGet (m : List (String × List (String × ℕ))) (a b : String) : ℕ :=
  (aGet b ((aGet a m).getD [])).getD 0

/-- The suggestion emission loop: for every stored ordered pair, emit a
suggestion when `strength = count / min(dayCounts) ≥ 0.5` and the raw
count is at least 2. -/
def suggestionsOf (co : List (String × List (String × ℕ)))
    (ac : List (String × ℕ)) : List Suggestion :=
  co.flatMap (fun p =>
    p.2.filterMap (fun q =>
      let strength : ℚ := (q.2 : ℚ) / ((min (cntD ac p.1) (cntD ac q.1) : ℕ) : ℚ)
      if 1/2 ≤ strength ∧ 2 ≤ q.2 then
        some (mkSuggestion p.1 q.1 (jsRound (strength * 100)))
      else none))

/-- The dedup key `[trigger, linked].sort().join('-')`. -/
def pairKey (s : Suggestion) : String :=
  if strLtJS s.linkedHabit s.triggerHabit then
    s.linkedHabit ++ "-" ++ s.triggerHabit
  else s.triggerHabit ++ "-" ++ s.linkedHabit

/-- Keep the first element of each `pairKey` class (the `seenPairs`
filter). -/
def dedupByKeyAux : List String → List Suggestion → List Suggestion
  | _, [] => []
  | seen, x :: t =>
    if pairKey x ∈ seen then dedupByKeyAux seen t
    else x :: dedupByKeyAux (pairKey x :: seen) t

/-- The trailing-30-day window of positive-type entries. -/
def positiveWindow (entries : List Entry) (today : ℤ) : List Entry :=
  entries.filter (fun e => decide (today - 30 ≤ e.day) && typeHasPositive e)

/-- Per-day activity lists of the window (`dayGroups`, in first-seen day
order; null activities are skipped). -/
def dayActivityLists (entries : List Entry) (today : ℤ) : List (List String) :=
  (groupFold (·.day)
    (fun e acts =>
      match e.activity with
      | some a => acts ++ [a]
      | none => acts)
    [] (positiveWindow entries today)).map Prod.snd

/-- Both counting maps, folded over all day lists. -/
def coCounts (dayLists : List (List String)) :
    List (String × List (String × ℕ)) × List (String × ℕ) :=
  dayLists.foldl processDay ([], [])

/-- The raw suggestion list (pre sort/dedup/slice). -/
def rawSuggestions (entries : List Entry) (today : ℤ) : List Suggestion :=
  let st := coCounts (dayActivityLists entries today)
  suggestionsOf st.1 st.2

/-- Suggestions sorted descending by rounded strength (stable). -/
def sortedSuggestions (entries : List Entry) (today : ℤ) : List Suggestion :=
  (rawSuggestions entries today).mergeSort (fun x y => decide (y.strength ≤ x.strength))

/-- Sorted suggestions with unordered-pair duplicates removed. -/
def dedupedSuggestions (entries : List Entry) (today : ℤ) : List Suggestion :=
  dedupByKeyAux [] (sortedSuggestions entries today)

/-- `generateStackingSuggestions`: empty when fewer than 3 window
entries exist, otherwise the top 5 deduped suggestions. -/
def generateStackingSuggestions (entries : List Entry) (today : ℤ) : List Suggestion :=
  if (positiveWindow entries today).length < 3 then []
  else (dedupedSuggestions entries today).take 5

/-- The per-day deduplicated activity sets of the window. -/
def daySetsOf (entries : List Entry) (today : ℤ) : List (List String) :=
  (dayActivityLists entries today).map uniqFirst

/-- Specification count: days on which both `a` and `b` occur. -/
def specCo (ds : List (List String)) (a b : String) : ℕ :=
  ds.countP (fun u => decide (a ∈ u) && decide (b ∈ u))

/-- Specification count: days on which `a` occurs. -/
def specCnt (ds : List (List String)) (a : String) : ℕ :=
  ds.countP (fun u => decide (a ∈ u))

/-- The claim's emission condition for an unordered pair: strength
`co / min(dayCounts) ≥ 1/2` and raw co-occurrence at least 2. -/
def qualifies (ds : List (List String)) (a b : String) : Prop :=
  a ≠ b ∧ min (specCnt ds a) (specCnt ds b) ≤ 2 * specCo ds a b ∧ 2 ≤ specCo ds a b

/-- Well-formedness of the nested co-occurrence map: distinct outer keys
and distinct keys in every inner map. -/
def CoNodup (m : List (String × List (String × ℕ))) : Prop :=
  (m.map Prod.fst).Nodup ∧ ∀ p ∈ m, ((p.2.map Prod.fst).Nodup)

/-- The rounded-percent strength of a pair, written from the spec-side
day counts. -/
def specStrength (ds : List (List String)) (a b : String) : ℤ :=
  jsRound (((specCo ds a b : ℚ) /
    ((min (specCnt ds a) (specCnt ds b) : ℕ) : ℚ)) * 100)

/-- Amended specification of the habit-stack miner: the short-window
guard, the top-5 slice, soundness and completeness of the deduplicated
suggestion list with respect to `qualifies`, descending sorting by
strength, and pairwise-distinct unordered pairs in the output. -/
def stackSpec (entries : List Entry) (today : ℤ) : Prop :=
  ((positiveWindow entries today).length < 3 →
    generateStackingSuggestions entries today = [])
  ∧ (3 ≤ (positiveWindow entries today).length →
      generateStackingSuggestions entries today =
        (dedupedSuggestions entries today).take 5)
  ∧ (∀ s ∈ dedupedSuggestions entries today,
      qualifies (daySetsOf entries today) s.triggerHabit s.linkedHabit ∧
      s.strength = specStrength (daySetsOf entries today) s.triggerHabit s.linkedHabit)
  ∧ (∀ a b, qualifies (daySetsOf entries today) a b →
      ∃ s ∈ dedupedSuggestions entries today,
        (s.triggerHabit = a ∧ s.linkedHabit = b) ∨
        (s.triggerHabit = b ∧ s.linkedHabit = a))
  ∧ (generateStackingSuggestions entries today).Pairwise
      (fun x y => y.strength ≤ x.strength)
  ∧ (generateStackingSuggestions entries today).Pairwise
      (fun x y => ¬((x.triggerHabit = y.triggerHabit ∧ x.linkedHabit = y.linkedHabit) ∨
        (x.triggerHabit = y.linkedHabit ∧ x.linkedHabit = y.triggerHabit)))

/-- Eight positive entries over four days whose activity names collide
under the hyphen-join dedup key: days with `{a-b, c}` and days with
`{a, b-c}` both produce the key `a-b-c`. -/
def demoStackEntries : List Entry :=
  [ { day := 97, activity := some "a-b", type := some "positive habit" },
    { day := 97, activity := some "c", type := some "positive habit" },
    { day := 98, activity := some "a-b", type := some "positive habit" },
    { day := 98, activity := some "c", type := some "positive habit" },
    { day := 99, activity := some "a", type := some "positive habit" },
    { day := 99, activity := some "b-c", type := some "positive habit" },
    { day := 100, activity := some "a", type := some "positive habit" },
    { day := 100, activity := some "b-c", type := some "positive habit" } ]

/-- Four positive entries with hyphen-free activity names. -/
def demoPlainEntries : List Entry :=
  [ { day := 99, activity := some "x", type := some "positive habit" },
    { day := 99, activity := some "y", type := some "positive habit" },
    { day := 100, activity := some "x", type := some "positive habit" },
    { day := 100, activity := some "y", type := some "positive habit" } ]

/-! ## Theorems -/

/-- `jsRound` agrees with the mathematical floor of `q + 1/2`. -/
theorem jsRound_eq_floor (q : ℚ) : jsRound q = ⌊q + 1/2⌋ := rfl

theorem aGet_upsert_self [DecidableEq κ] (k : κ) (f : β → β) (init : β) :
    ∀ m : List (κ × β), aGet k (upsert k f init m) = some (f ((aGet k m).getD init))
  | [] => by simp [aGet, upsert]
  | (k', v) :: t => by
    by_cases h : k' = k
    · simp [aGet, upsert, h]
    · simp only [aGet, upsert, if_neg h]
      exact aGet_upsert_self k f init t

theorem aGet_upsert_ne [DecidableEq κ] (k k₀ : κ) (f : β → β) (init : β) (hne : k ≠ k₀) :
    ∀ m : List (κ × β), aGet k (upsert k₀ f init m) = aGet k m
  | [] => by simp [aGet, upsert, Ne.symm hne]
  | (k', v) :: t => by
    by_cases h : k' = k₀
    · subst h
      simp [aGet, upsert, Ne.symm hne]
    · simp only [aGet, upsert, if_neg h]
      by_cases h2 : k' = k
      · simp [h2]
      · simp only [if_neg h2]
        exact aGet_upsert_ne k k₀ f init hne t

/-- Value of one bucket after folding a whole list into a partially
filled map: it is the fold of `upd` over the items whose key matches,
starting from the bucket's prior value (or `init` if absent, and staying
absent if no item matches). -/
theorem aGet_foldl_upsert [DecidableEq κ] (key : α → κ) (upd : α → β → β) (init : β) (k : κ) :
    ∀ (l : List α) (m : List (κ × β)),
      aGet k (l.foldl (fun m e => upsert (key e) (upd e) init m) m) =
        match aGet k m, l.filter (fun e => key e = k) with
        | some v, fs => some (applyAll upd fs v)
        | none, [] => none
        | none, fs => some (applyAll upd fs init)
  | [], m => by cases hm : aGet k m <;> simp [hm, applyAll]
  | e :: t, m => by
    by_cases hk : key e = k
    · have hstep : aGet k (upsert (key e) (upd e) init m) =
          some (upd e ((aGet k m).getD init)) := by
        rw [hk]; exact aGet_upsert_self k (upd e) init m
      have ih := aGet_foldl_upsert key upd init k t (upsert (key e) (upd e) init m)
      simp only [List.foldl_cons] at *
      rw [ih, hstep]
      cases hm : aGet k m <;>
        simp [hm, List.filter_cons, hk, applyAll]
    · have hstep : aGet k (upsert (key e) (upd e) init m) = aGet k m :=
        aGet_upsert_ne k (key e) (upd e) init (fun h => hk h.symm) m
      have ih := aGet_foldl_upsert key upd init k t (upsert (key e) (upd e) init m)
      simp only [List.foldl_cons] at *
      rw [ih, hstep]
      cases hm : aGet k m <;>
        simp [hm, List.filter_cons, hk]

/-- Bucket contents of `groupFold`. -/
theorem aGet_groupFold [DecidableEq κ] (key : α → κ) (upd : α → β → β) (init : β) (k : κ)
    (l : List α) :
    aGet k (groupFold key upd init l) =
      match l.filter (fun e => key e = k) with
      | [] => none
      | fs => some (applyAll upd fs init) := by
  have h := aGet_foldl_upsert key upd init k l []
  rw [groupFold, h]
  cases l.filter (fun e => key e = k) <;> simp [aGet]

theorem mem_of_aGet [DecidableEq κ] (k : κ) (v : β) :
    ∀ m : List (κ × β), aGet k m = some v → (k, v) ∈ m
  | [], h => by simp [aGet] at h
  | (k', v') :: t, h => by
    by_cases hk : k' = k
    · subst hk
      have hv : v' = v := by simpa [aGet] using h
      subst hv
      exact List.mem_cons_self _ _
    · simp only [aGet, if_neg hk] at h
      exact List.mem_cons_of_mem _ (mem_of_aGet k v t h)

/-- A key occurring in a map makes its lookup succeed. -/
theorem aGet_isSome_of_mem_keys [DecidableEq κ] (k : κ) :
    ∀ m : List (κ × β), k ∈ m.map Prod.fst → (aGet k m).isSome
  | [], h => by simp at h
  | (k', v) :: t, h => by
    by_cases hk : k' = k
    · subst hk
      simp [aGet]
    · simp only [List.map_cons, List.mem_cons] at h
      rcases h with h | h
      · exact absurd h.symm hk
      · simp only [aGet, if_neg hk]
        exact aGet_isSome_of_mem_keys k t h

/-- Keys of an upserted map. -/
theorem keys_upsert [DecidableEq κ] (k : κ) (f : β → β) (init : β) :
    ∀ m : List (κ × β), (upsert k f init m).map Prod.fst =
      if (aGet k m).isSome then m.map Prod.fst else m.map Prod.fst ++ [k]
  | [] => by simp [upsert, aGet]
  | (k', v) :: t => by
    by_cases h : k' = k
    · simp [upsert, aGet, h]
    · simp only [upsert, if_neg h, aGet, List.map_cons]
      rw [keys_upsert k f init t]
      by_cases h2 : (aGet k t).isSome <;> simp [h2]

theorem nodup_keys_foldl_upsert [DecidableEq κ] (key : α → κ) (upd : α → β → β) (init : β) :
    ∀ (l : List α) (m : List (κ × β)), (m.map Prod.fst).Nodup →
      ((l.foldl (fun m e => upsert (key e) (upd e) init m) m).map Prod.fst).Nodup
  | [], _, hm => hm
  | e :: t, m, hm => by
    simp only [List.foldl_cons]
    apply nodup_keys_foldl_upsert key upd init t
    rw [keys_upsert]
    by_cases h : (aGet (key e) m).isSome
    · simpa [h] using hm
    · simp only [h, if_false, Bool.false_eq_true]
      rw [List.nodup_append]
      refine ⟨hm, List.nodup_singleton _, ?_⟩
      intro a ha hb
      simp only [List.mem_singleton] at hb
      subst hb
      exact h (aGet_isSome_of_mem_keys _ m ha)

/-- `groupFold` maps have pairwise-distinct keys. -/
theorem nodup_keys_groupFold [DecidableEq κ] (key : α → κ) (upd : α → β → β) (init : β)
    (l : List α) : ((groupFold key upd init l).map Prod.fst).Nodup :=
  nodup_keys_foldl_upsert key upd init l [] (by simp)

/-- In a map with distinct keys, membership pins down the lookup. -/
theorem aGet_of_mem_nodup [DecidableEq κ] (k : κ) (v : β) :
    ∀ m : List (κ × β), (m.map Prod.fst).Nodup → (k, v) ∈ m → aGet k m = some v
  | (k', v') :: t, hnd, hmem => by
    simp only [List.map_cons, List.nodup_cons] at hnd
    rcases List.mem_cons.mp hmem with h1 | h1
    · cases h1
      simp [aGet]
    · by_cases hk : k' = k
      · subst hk
        exact absurd (List.mem_map.mpr ⟨(k', v), h1, rfl⟩) hnd.1
      · simp only [aGet, if_neg hk]
        exact aGet_of_mem_nodup k v t hnd.2 h1

/-- Membership in a `groupFold` map, characterised by the bucket fold. -/
theorem mem_groupFold_iff [DecidableEq κ] (key : α → κ) (upd : α → β → β) (init : β)
    (l : List α) (k : κ) (v : β) :
    (k, v) ∈ groupFold key upd init l ↔
      ((l.filter fun e => key e = k) ≠ [] ∧
        v = applyAll upd (l.filter fun e => key e = k) init) := by
  constructor
  · intro hmem
    have hget := aGet_of_mem_nodup k v _ (nodup_keys_groupFold key upd init l) hmem
    rw [aGet_groupFold] at hget
    cases hf : l.filter (fun e => key e = k) with
    | nil => rw [hf] at hget; cases hget
    | cons a fs =>
      rw [hf] at hget
      simp only [Option.some.injEq] at hget
      exact ⟨by simp [hf], hget.symm⟩
  · rintro ⟨hne, rfl⟩
    apply mem_of_aGet
    rw [aGet_groupFold]
    cases hf : l.filter (fun e => key e = k) with
    | nil => exact absurd hf hne
    | cons a fs => rfl

/-- Skipping one interval of the threshold scan. -/
theorem gnlpScan_cons_neg (p a b : ℤ) (t : List ℤ) (h : ¬(a ≤ p ∧ p < b)) :
    gnlpScan p (a :: b :: t) = gnlpScan p (b :: t) := by
  simp only [gnlpScan]
  rw [if_neg h]

/-- Hitting one interval of the threshold scan. -/
theorem gnlpScan_cons_pos (p a b : ℤ) (t : List ℤ) (h : a ≤ p ∧ p < b) :
    gnlpScan p (a :: b :: t) =
      some ⟨p - a, b - a, jsRound (((p - a : ℤ) : ℚ) / ((b - a : ℤ) : ℚ) * 100)⟩ := by
  simp only [gnlpScan]
  rw [if_pos h]

/-- C1 counterexample: at 3600 total points (strictly above the top named
threshold 3500) the returned progress is extrapolated from the extra 5000
threshold (`needed = 1500`, `progress = 7`), not saturated. -/
theorem getNextLevelProgress_not_saturated_at_3600 :
    (3600 : ℤ) > 3500 ∧
      ¬((getNextLevelProgress 3600).progress = 100 ∧
        (getNextLevelProgress 3600).needed = 100) := by
  refine ⟨by norm_num, fun hc => ?_⟩
  have hne : (getNextLevelProgress 3600).needed = 1500 := by
    unfold getNextLevelProgress levelThresholds
    rw [gnlpScan_cons_neg _ _ _ _ (by norm_num), gnlpScan_cons_neg _ _ _ _ (by norm_num),
      gnlpScan_cons_neg _ _ _ _ (by norm_num), gnlpScan_cons_neg _ _ _ _ (by norm_num),
      gnlpScan_cons_neg _ _ _ _ (by norm_num), gnlpScan_cons_neg _ _ _ _ (by norm_num),
      gnlpScan_cons_neg _ _ _ _ (by norm_num), gnlpScan_cons_neg _ _ _ _ (by norm_num),
      gnlpScan_cons_neg _ _ _ _ (by norm_num), gnlpScan_cons_pos _ _ _ _ (by norm_num)]
    norm_num
  rw [hne] at hc
  exact absurd hc.2 (by norm_num)

/-- C1 (amended): above the top named threshold 3500, the snapshot is
saturated (`progress = 100`, `needed = 100`) only once points reach the
extra 5000 threshold; for 3500 < points < 5000 the progress is
extrapolated from that further threshold with `needed = 1500`. -/
theorem getNextLevelProgress_above_top_threshold (p : ℤ) (h : 3500 < p) :
    (p < 5000 →
      getNextLevelProgress p =
        ⟨p - 3500, 1500, jsRound (((p - 3500 : ℤ) : ℚ) / 1500 * 100)⟩) ∧
    (5000 ≤ p → getNextLevelProgress p = ⟨p, 100, 100⟩) := by
  have hskip : gnlpScan p levelThresholds = gnlpScan p [3500, 5000] := by
    unfold levelThresholds
    rw [gnlpScan_cons_neg _ _ _ _ (by omega), gnlpScan_cons_neg _ _ _ _ (by omega),
      gnlpScan_cons_neg _ _ _ _ (by omega), gnlpScan_cons_neg _ _ _ _ (by omega),
      gnlpScan_cons_neg _ _ _ _ (by omega), gnlpScan_cons_neg _ _ _ _ (by omega),
      gnlpScan_cons_neg _ _ _ _ (by omega), gnlpScan_cons_neg _ _ _ _ (by omega),
      gnlpScan_cons_neg _ _ _ _ (by omega)]
  constructor
  · intro h5
    unfold getNextLevelProgress
    rw [hskip, gnlpScan_cons_pos _ _ _ _ ⟨by omega, h5⟩]
    norm_num
  · intro h5
    unfold getNextLevelProgress
    rw [hskip, gnlpScan_cons_neg _ _ _ _ (by omega)]
    simp [gnlpScan]

/-- Witness for the C1 amended theorem at points = 6000. -/
theorem getNextLevelProgress_above_top_threshold_witness :
    getNextLevelProgress 6000 = ⟨6000, 100, 100⟩ :=
  (getNextLevelProgress_above_top_threshold 6000 (by decide)).2 (by decide)

theorem moodBucket_applyAll :
    ∀ (fs : List Entry) (b : MoodBucket),
      applyAll moodUpd fs b =
        ⟨b.score + (fs.filterMap entryMoodScore).sum,
         b.count + (fs.filterMap entryMoodScore).length,
         b.moods ++ fs.filterMap entryMappedMood⟩
  | [], b => by simp [applyAll]
  | e :: t, b => by
    have ih := moodBucket_applyAll t (moodUpd e b)
    simp only [applyAll, List.foldl_cons] at *
    rw [ih]
    cases hm : e.mood with
    | none => simp [moodUpd, entryMoodScore, entryMappedMood, hm]
    | some m =>
      cases hs : aGet m moodScores with
      | none => simp [moodUpd, entryMoodScore, entryMappedMood, hm, hs]
      | some s =>
        simp [moodUpd, entryMoodScore, entryMappedMood, hm, hs]
        omega

/-- C3 (amended): each daily mood-heatmap row's score is the one-decimal
rounding of the mean of the lookup scores of that day's entries **whose
mood label is in the lookup** — entries with an unmapped mood label are
excluded from both numerator and denominator (not scored 3), and a day
with only unmapped or absent moods scores the default 3. -/
theorem generateMoodHeatmapDaily_score (entries : List Entry) (r : MoodRow)
    (hr : r ∈ generateMoodHeatmapDaily entries) :
    r.score =
      roundTenth (if mappedMoodScores entries r.date = [] then 3
        else ((mappedMoodScores entries r.date).sum : ℚ) /
          ((mappedMoodScores entries r.date).length : ℚ)) ∧
    r.count = (mappedMoodScores entries r.date).length := by
  obtain ⟨⟨k, v⟩, hkv, rfl⟩ := List.mem_map.mp hr
  obtain ⟨hne, hv⟩ := (mem_groupFold_iff _ _ _ _ _ _).mp hkv
  have hbucket : v = ⟨(mappedMoodScores entries k).sum,
      (mappedMoodScores entries k).length,
      (entries.filter (fun e => e.day = k)).filterMap entryMappedMood⟩ := by
    rw [hv, moodBucket_applyAll]
    simp [mappedMoodScores]
  have hdate : (mkMoodRow k v).date = k := rfl
  rw [hdate]
  subst hbucket
  constructor
  · show roundTenth _ = _
    congr 1
    by_cases h0 : mappedMoodScores entries k = []
    · simp [h0]
    · have hlen : (mappedMoodScores entries k).length > 0 :=
        List.length_pos.mpr h0
      simp [h0, hlen]
  · rfl

/-- Witness for the C3 amended theorem: a single entry with mood
`"happy"` on day 0 yields a row with score 5 over one scored entry. -/
theorem generateMoodHeatmapDaily_score_witness :
    (mkMoodRow 0 ⟨5, 1, ["happy"]⟩).score = 5 ∧
      (mkMoodRow 0 ⟨5, 1, ["happy"]⟩).count = 1 := by
  have hmem : mkMoodRow 0 ⟨5, 1, ["happy"]⟩ ∈
      generateMoodHeatmapDaily [{ day := 0, mood := some "happy" }] := by
    rw [show generateMoodHeatmapDaily [{ day := 0, mood := some "happy" }] =
      [mkMoodRow 0 ⟨5, 1, ["happy"]⟩] from rfl]
    exact List.mem_singleton.mpr rfl
  have h := generateMoodHeatmapDaily_score
    [{ day := 0, mood := some "happy" }] (mkMoodRow 0 ⟨5, 1, ["happy"]⟩) hmem
  refine ⟨?_, rfl⟩
  rw [h.1]
  have hms : mappedMoodScores [{ day := 0, mood := some "happy" }]
      (mkMoodRow 0 ⟨5, 1, ["happy"]⟩).date = [5] := rfl
  rw [hms]
  norm_num [roundTenth, jsRound_eq_floor]

/-- C3 counterexample: on a day holding one `"happy"` entry (score 5) and
one entry with the unmapped mood label `"confused"`, the reported daily
score is 5 — the unmapped-mood entry is dropped, not scored as the
claimed default 3 (which would give (5+3)/2 = 4). -/
theorem generateMoodHeatmapDaily_unmapped_dropped :
    (generateMoodHeatmapDaily
        [{ day := 0, mood := some "happy" },
         { day := 0, mood := some "confused" }]).map (fun r => r.score) = [5] ∧
      (5 : ℚ) ≠ 4 := by
  constructor
  · rw [show generateMoodHeatmapDaily
        [{ day := 0, mood := some "happy" }, { day := 0, mood := some "confused" }] =
        [mkMoodRow 0 ⟨5, 1, ["happy"]⟩] from rfl]
    simp only [List.map_cons, List.map_nil]
    rw [show (mkMoodRow 0 ⟨5, 1, ["happy"]⟩).score = 5 from by
      norm_num [mkMoodRow, roundTenth, jsRound_eq_floor]]
  · norm_num

theorem sentBucket_applyAll :
    ∀ (fs : List Entry) (b : SentBucket),
      applyAll sentUpd fs b =
        ⟨b.positive + sentCount "positive" fs,
         b.neutral + sentCount "neutral" fs,
         b.negative + sentCount "negative" fs,
         b.total + fs.length + sentCount "total" fs⟩
  | [], b => by simp [applyAll, sentCount]
  | e :: t, b => by
    have ih := sentBucket_applyAll t (sentUpd e b)
    simp only [applyAll, List.foldl_cons] at *
    rw [ih]
    cases hm : e.sentiment with
    | none =>
      simp [sentUpd, sentCount, hm, List.countP_cons]; omega
    | some s =>
      by_cases h1 : s = "positive"
      · subst h1
        simp [sentUpd, sentCount, hm, List.countP_cons]; omega
      · by_cases h2 : s = "neutral"
        · subst h2
          simp [sentUpd, sentCount, hm, List.countP_cons]; omega
        · by_cases h3 : s = "negative"
          · subst h3
            simp [sentUpd, sentCount, hm, List.countP_cons]; omega
          · by_cases h4 : s = "total"
            · subst h4
              simp [sentUpd, sentCount, hm, List.countP_cons]; omega
            · simp [sentUpd, sentCount, hm, h1, h2, h3, h4, List.countP_cons]; omega

/-- C2 (amended): in each daily sentiment row, the positive / neutral /
negative counts are the per-day sentiment tallies, and the dominant
sentiment is `"positive"` only when the positive count is **strictly**
greater than both others, `"negative"` only when positive does not
strictly dominate and the negative count is **strictly** greater than
the neutral count, and `"neutral"` otherwise.  In particular a
positive/negative tie that beats neutral is reported `"negative"` (not
`"positive"`), and a negative/neutral tie is reported `"neutral"` (not
`"negative"`). -/
theorem generateSentimentHeatmapDaily_dominant (entries : List Entry) (r : SentRow)
    (hr : r ∈ generateSentimentHeatmapDaily entries) :
    (r.positive = sentCount "positive" (entries.filter (fun e => e.day = r.date)) ∧
     r.neutral = sentCount "neutral" (entries.filter (fun e => e.day = r.date)) ∧
     r.negative = sentCount "negative" (entries.filter (fun e => e.day = r.date))) ∧
    (r.dominantSentiment = "positive" ↔ r.positive > r.negative ∧ r.positive > r.neutral) ∧
    (r.dominantSentiment = "negative" ↔
      ¬(r.positive > r.negative ∧ r.positive > r.neutral) ∧ r.negative > r.neutral) ∧
    (r.positive = r.negative ∧ r.negative > r.neutral → r.dominantSentiment = "negative") ∧
    (r.negative = r.neutral ∧ ¬(r.positive > r.negative ∧ r.positive > r.neutral) →
      r.dominantSentiment = "neutral") := by
  obtain ⟨⟨k, v⟩, hkv, rfl⟩ := List.mem_map.mp hr
  obtain ⟨hne, hv⟩ := (mem_groupFold_iff _ _ _ _ _ _).mp hkv
  rw [sentBucket_applyAll] at hv
  have hdate : (mkSentRow k v).date = k := rfl
  have hpos : (mkSentRow k v).positive = v.positive := rfl
  have hneu : (mkSentRow k v).neutral = v.neutral := rfl
  have hneg : (mkSentRow k v).negative = v.negative := rfl
  refine ⟨⟨?_, ?_, ?_⟩, ?_, ?_, ?_, ?_⟩
  · rw [hpos, hdate, hv]; simp
  · rw [hneu, hdate, hv]; simp
  · rw [hneg, hdate, hv]; simp
  · rw [hpos, hneu, hneg]
    show (if v.positive > v.negative ∧ v.positive > v.neutral then "positive"
      else if v.negative > v.neutral then "negative" else "neutral") = "positive" ↔ _
    by_cases hA : v.positive > v.negative ∧ v.positive > v.neutral
    · simp [hA]
    · by_cases hB : v.negative > v.neutral <;> simp [hA, hB]
  · rw [hpos, hneu, hneg]
    show (if v.positive > v.negative ∧ v.positive > v.neutral then "positive"
      else if v.negative > v.neutral then "negative" else "neutral") = "negative" ↔ _
    by_cases hA : v.positive > v.negative ∧ v.positive > v.neutral
    · simp [hA]
    · by_cases hB : v.negative > v.neutral <;> simp [hA, hB]
  · rw [hpos, hneu, hneg]
    rintro ⟨hEq, hgt⟩
    show (if v.positive > v.negative ∧ v.positive > v.neutral then "positive"
      else if v.negative > v.neutral then "negative" else "neutral") = "negative"
    rw [if_neg (by omega), if_pos hgt]
  · rw [hpos, hneu, hneg]
    rintro ⟨hEq, hnA⟩
    show (if v.positive > v.negative ∧ v.positive > v.neutral then "positive"
      else if v.negative > v.neutral then "negative" else "neutral") = "neutral"
    rw [if_neg hnA, if_neg (by omega)]

/-- Witness for the C2 amended theorem on the counterexample entry list:
day 0's row carries counts (2, 0, 2) and its dominant sentiment is not
`"positive"`. -/
theorem generateSentimentHeatmapDaily_dominant_witness :
    (mkSentRow 0 ⟨2, 0, 2, 4⟩).positive =
        sentCount "positive" (demoSentEntries.filter (fun e => e.day = 0)) ∧
      (mkSentRow 0 ⟨2, 0, 2, 4⟩).dominantSentiment ≠ "positive" := by
  have hmem : mkSentRow 0 ⟨2, 0, 2, 4⟩ ∈ generateSentimentHeatmapDaily demoSentEntries := by
    rw [show generateSentimentHeatmapDaily demoSentEntries =
      [mkSentRow 0 ⟨2, 0, 2, 4⟩, mkSentRow 1 ⟨0, 1, 1, 2⟩] from rfl]
    exact List.mem_cons_self _ _
  have h := generateSentimentHeatmapDaily_dominant demoSentEntries _ hmem
  refine ⟨?_, ?_⟩
  · have := h.1.1
    rwa [show (mkSentRow 0 (⟨2, 0, 2, 4⟩ : SentBucket)).date = 0 from rfl] at this
  · intro hpos
    have := (h.2.1).mp hpos
    revert this
    decide

/-- For an entry with a (truthy) mood, `trendUpd` bumps the count and
performs the incremental average update; the quantity and activity
branches touch neither field. -/
theorem trendUpd_mood (e : Entry) (b : TrendAcc) (m : String)
    (hm : e.mood = some m) (hm0 : m ≠ "") :
    (trendUpd e b).count = b.count + 1 ∧
    (trendUpd e b).avgMood =
      (b.avgMood * (((b.count + 1 : ℕ) : ℚ) - 1) + (((aGet m moodToScore).getD 3 : ℕ) : ℚ)) /
        ((b.count + 1 : ℕ) : ℚ) := by
  cases hq : e.quantity <;> cases ha : e.activity <;>
    first
      | (simp [trendUpd, hm, hq, ha, hm0]; done)
      | (simp [trendUpd, hm, hq, ha, hm0] <;> split_ifs <;> simp)
      | (simp [trendUpd, hm, hq, ha, hm0] <;> split_ifs)

/-- The `count` and `avgMood` invariant of the trend-bucket fold over a
run of mood-bearing entries: the average stays the score sum divided by
the entry count. -/
theorem trendAcc_applyAll_mood :
    ∀ (fs : List Entry) (b : TrendAcc), (∀ e ∈ fs, (trendMoodScore e).isSome) →
      (applyAll trendUpd fs b).count = b.count + fs.length ∧
      (applyAll trendUpd fs b).avgMood * ((b.count : ℚ) + (fs.length : ℚ)) =
        b.avgMood * (b.count : ℚ) + ((fs.filterMap trendMoodScore).sum : ℚ)
  | [], b, _ => by simp [applyAll]
  | e :: t, b, hall => by
    have hsome : (trendMoodScore e).isSome := hall e (List.mem_cons_self _ _)
    obtain ⟨m, hm⟩ : ∃ m, e.mood = some m := by
      cases hmm : e.mood with
      | none => simp [trendMoodScore, hmm] at hsome
      | some m => exact ⟨m, rfl⟩
    have hm0 : m ≠ "" := by
      intro h
      simp [trendMoodScore, hm, h] at hsome
    have hts : trendMoodScore e = some ((aGet m moodToScore).getD 3) := by
      rw [trendMoodScore, hm]
      simp [hm0]
    obtain ⟨hc, ha⟩ := trendUpd_mood e b m hm hm0
    have hC : ((b.count + 1 : ℕ) : ℚ) = (b.count : ℚ) + 1 := by push_cast; ring
    have hnz : ((b.count : ℚ) + 1) ≠ 0 := by positivity
    have hstep_avg : (trendUpd e b).avgMood * ((b.count : ℚ) + 1) =
        b.avgMood * (b.count : ℚ) + (((aGet m moodToScore).getD 3 : ℕ) : ℚ) := by
      rw [ha, hC]
      field_simp
    have ih := trendAcc_applyAll_mood t (trendUpd e b)
      (fun x hx => hall x (List.mem_cons_of_mem _ hx))
    have hfold : applyAll trendUpd (e :: t) b = applyAll trendUpd t (trendUpd e b) := rfl
    refine ⟨?_, ?_⟩
    · rw [hfold, ih.1, hc, List.length_cons]
      ring
    · rw [hfold, List.length_cons, List.filterMap_cons, hts]
      have h2 := ih.2
      rw [hc, hC] at h2
      have hLen : ((t.length + 1 : ℕ) : ℚ) = (t.length : ℚ) + 1 := by push_cast; ring
      have hSum : ((((aGet m moodToScore).getD 3) :: t.filterMap trendMoodScore).sum : ℚ)
          = (((aGet m moodToScore).getD 3 : ℕ) : ℚ) +
            ((t.filterMap trendMoodScore).sum : ℚ) := by
        rw [List.sum_cons]
        push_cast
        ring
      rw [hLen, hSum]
      calc (applyAll trendUpd t (trendUpd e b)).avgMood *
          ((b.count : ℚ) + ((t.length : ℚ) + 1))
          = (applyAll trendUpd t (trendUpd e b)).avgMood *
            (((b.count : ℚ) + 1) + (t.length : ℚ)) := by ring
        _ = (trendUpd e b).avgMood * ((b.count : ℚ) + 1) +
            ((t.filterMap trendMoodScore).sum : ℚ) := h2
        _ = (b.avgMood * (b.count : ℚ) + (((aGet m moodToScore).getD 3 : ℕ) : ℚ)) +
            ((t.filterMap trendMoodScore).sum : ℚ) := by rw [hstep_avg]
        _ = b.avgMood * (b.count : ℚ) +
            ((((aGet m moodToScore).getD 3 : ℕ) : ℚ) +
              ((t.filterMap trendMoodScore).sum : ℚ)) := by ring

/-- C4 (amended): a trend bucket's `avgMood` equals the mean of the
`moodToScore` scores (default 3) over the bucket's entries **provided
every entry in the bucket carries a mood**; in general the incremental
update divides by the bucket's running total entry count, so mood-less
entries preceding mood entries deflate the average. -/
theorem groupEntriesByPeriod_avgMood (entries : List Entry) (groupBy : String) (r : TrendRow)
    (hr : r ∈ groupEntriesByPeriod entries groupBy)
    (hm : ∀ e ∈ entries, groupKey groupBy e = r.date → (trendMoodScore e).isSome) :
    r.count = (entries.filter (fun e => groupKey groupBy e = r.date)).length ∧
    r.avgMood =
      ((((entries.filter (fun e => groupKey groupBy e = r.date)).filterMap
          trendMoodScore).sum : ℕ) : ℚ) /
        (((entries.filter (fun e => groupKey groupBy e = r.date)).length : ℕ) : ℚ) := by
  rw [groupEntriesByPeriod] at hr
  have hr' := List.mem_mergeSort.mp hr
  obtain ⟨⟨k, v⟩, hkv, rfl⟩ := List.mem_map.mp hr'
  obtain ⟨hne, hv⟩ := (mem_groupFold_iff _ _ _ _ _ _).mp hkv
  have hdate : (mkTrendRow k v).date = k := rfl
  rw [hdate] at hm ⊢
  have hall : ∀ e ∈ entries.filter (fun e => groupKey groupBy e = k),
      (trendMoodScore e).isSome := by
    intro e he
    have h1 := List.mem_filter.mp he
    exact hm e h1.1 (by simpa using h1.2)
  have h := trendAcc_applyAll_mood (entries.filter (fun e => groupKey groupBy e = k))
    ⟨0, 0, [], 0, []⟩ hall
  rw [← hv] at h
  have hcount : (mkTrendRow k v).count = v.count := rfl
  have havg : (mkTrendRow k v).avgMood = v.avgMood := rfl
  have hlen : (entries.filter (fun e => groupKey groupBy e = k)).length ≠ 0 := by
    intro h0
    exact hne (List.length_eq_zero.mp h0)
  refine ⟨by rw [hcount]; simpa using h.1, ?_⟩
  rw [havg]
  have h2 := h.2
  simp only [Nat.cast_zero, zero_add, zero_mul] at h2
  rw [eq_div_iff (by exact_mod_cast hlen)]
  exact h2

/-- Witness for the C4 amended theorem: a single `"happy"` entry gives a
day bucket with average mood 5. -/
theorem groupEntriesByPeriod_avgMood_witness :
    (mkTrendRow 0 (trendUpd demoHappy ⟨0, 0, [], 0, []⟩)).avgMood = 5 := by
  have hlist : groupEntriesByPeriod [demoHappy] "day" =
      [mkTrendRow 0 (trendUpd demoHappy ⟨0, 0, [], 0, []⟩)] := by
    simp [groupEntriesByPeriod, groupFold, upsert, groupKey, demoHappy]
  have hmem : (mkTrendRow 0 (trendUpd demoHappy ⟨0, 0, [], 0, []⟩)) ∈
      groupEntriesByPeriod [demoHappy] "day" := by
    rw [hlist]
    exact List.mem_singleton.mpr rfl
  have h := groupEntriesByPeriod_avgMood [demoHappy] "day" _ hmem (by decide)
  rw [h.2]
  rw [show (List.filter
      (fun e => decide (groupKey "day" e =
        (mkTrendRow 0 (trendUpd demoHappy ⟨0, 0, [], 0, []⟩)).date)) [demoHappy]) =
      [demoHappy] from rfl]
  rw [show List.filterMap trendMoodScore [demoHappy] = [5] from rfl]
  norm_num

/-- C4 counterexample: a bucket holding one mood-less entry and one
`"happy"` entry reports `avgMood = 5/2`, not the mean 5 over the
bucket's single mood-bearing entry — the mood-less entry inflates the
divisor. -/
theorem groupEntriesByPeriod_moodless_skews_avg :
    (groupEntriesByPeriod demoTrendEntries "day").map (fun r => r.avgMood) = [5/2] ∧
      (5/2 : ℚ) ≠ 5 := by
  constructor
  · norm_num [groupEntriesByPeriod, groupFold, upsert, trendUpd, groupKey, mkTrendRow,
      aGet, moodToScore, demoTrendEntries]
    rw [if_neg (by decide : ¬("happy" : String) = "")]
  · norm_num

theorem mem_uniqFirstAux [DecidableEq α] :
    ∀ (l seen : List α) (a : α), a ∈ uniqFirstAux l seen ↔ a ∈ l ∧ a ∉ seen
  | [], seen, a => by simp [uniqFirstAux]
  | x :: t, seen, a => by
    by_cases hx : x ∈ seen
    · simp only [uniqFirstAux, if_pos hx]
      rw [mem_uniqFirstAux t seen a, List.mem_cons]
      constructor
      · rintro ⟨h1, h2⟩
        exact ⟨Or.inr h1, h2⟩
      · rintro ⟨h1 | h1, h2⟩
        · subst h1
          exact absurd hx h2
        · exact ⟨h1, h2⟩
    · simp only [uniqFirstAux, if_neg hx, List.mem_cons]
      rw [mem_uniqFirstAux t (x :: seen) a]
      by_cases hax : a = x
      · subst hax
        simp [hx]
      · simp [hax]

theorem nodup_uniqFirstAux [DecidableEq α] :
    ∀ (l seen : List α), (uniqFirstAux l seen).Nodup
  | [], _ => List.nodup_nil
  | x :: t, seen => by
    by_cases hx : x ∈ seen
    · simp only [uniqFirstAux, if_pos hx]
      exact nodup_uniqFirstAux t seen
    · simp only [uniqFirstAux, if_neg hx]
      refine List.nodup_cons.mpr ⟨?_, nodup_uniqFirstAux t (x :: seen)⟩
      intro hmem
      exact ((mem_uniqFirstAux t (x :: seen) x).mp hmem).2 (List.mem_cons_self _ _)

/-- Every day the streak walk counts is present. -/
theorem streakLoop_present (dates : List ℤ) :
    ∀ (fuel : ℕ) (d : ℤ) (j : ℕ), j < streakLoop dates d fuel → (d - (j : ℤ)) ∈ dates
  | 0, d, j, h => by simp [streakLoop] at h
  | fuel + 1, d, j, h => by
    by_cases hd : d ∈ dates
    · rw [streakLoop, if_pos hd] at h
      cases j with
      | zero => simpa using hd
      | succ j' =>
        have hj' : j' < streakLoop dates (d - 1) fuel := by omega
        have hm := streakLoop_present dates fuel (d - 1) j' hj'
        have heq : d - ((j' + 1 : ℕ) : ℤ) = (d - 1) - (j' : ℤ) := by push_cast; ring
        rwa [heq]
    · rw [streakLoop, if_neg hd] at h
      omega

/-- The streak walk stops at exhausted fuel or at a missing day. -/
theorem streakLoop_stop (dates : List ℤ) :
    ∀ (fuel : ℕ) (d : ℤ),
      streakLoop dates d fuel = fuel ∨ (d - (streakLoop dates d fuel : ℤ)) ∉ dates
  | 0, _ => Or.inl rfl
  | fuel + 1, d => by
    by_cases hd : d ∈ dates
    · have hs : streakLoop dates d (fuel + 1) = streakLoop dates (d - 1) fuel + 1 := by
        rw [streakLoop, if_pos hd]
      rcases streakLoop_stop dates fuel (d - 1) with h | h
      · left
        rw [hs, h]
      · right
        rw [hs]
        have heq : d - ((streakLoop dates (d - 1) fuel + 1 : ℕ) : ℤ) =
            (d - 1) - (streakLoop dates (d - 1) fuel : ℤ) := by push_cast; ring
        rw [heq]
        exact h
    · right
      have hs : streakLoop dates d (fuel + 1) = 0 := by rw [streakLoop, if_neg hd]
      rw [hs]
      simpa using hd

/-- C7: the stats route's current streak is the largest `k` such that
each of the `k` calendar days `today`, `today − 1`, ...,
`today − (k − 1)` carries at least one entry. -/
theorem calculateStreaks_current_spec (entries : List Entry) (today : ℤ) :
    (∀ j : ℕ, j < (calculateStreaks entries today).current →
      ∃ e ∈ entries, e.day = today - (j : ℤ)) ∧
    (∀ k : ℕ, (∀ j : ℕ, j < k → ∃ e ∈ entries, e.day = today - (j : ℤ)) →
      k ≤ (calculateStreaks entries today).current) := by
  set dates := (entryDays entries).mergeSort (fun x y => decide (y ≤ x)) with hdates
  have hmemd : ∀ a : ℤ, a ∈ dates ↔ ∃ e ∈ entries, e.day = a := by
    intro a
    rw [hdates, List.mem_mergeSort]
    unfold entryDays uniqFirst
    rw [mem_uniqFirstAux]
    simp [List.mem_map]
  have hcur : (calculateStreaks entries today).current =
      streakLoop dates today dates.length := rfl
  have hnd : dates.Nodup := by
    rw [hdates]
    exact ((List.mergeSort_perm _ _).nodup_iff).mpr (nodup_uniqFirstAux _ _)
  constructor
  · intro j hj
    rw [hcur] at hj
    exact (hmemd _).mp (streakLoop_present dates dates.length today j hj)
  · intro k hk
    rw [hcur]
    rcases streakLoop_stop dates dates.length today with h | h
    · rw [h]
      by_contra hlt
      push_neg at hlt
      have hsub : ((List.range k).map (fun j : ℕ => today - (j : ℤ))) ⊆ dates := by
        intro a ha
        obtain ⟨j, hj, rfl⟩ := List.mem_map.mp ha
        exact (hmemd _).mpr (hk j (List.mem_range.mp hj))
      have hndk : ((List.range k).map (fun j : ℕ => today - (j : ℤ))).Nodup := by
        refine List.Nodup.map ?_ (List.nodup_range k)
        intro a b hab
        simp only at hab
        omega
      have hle := (List.Nodup.subperm hndk hsub).length_le
      rw [List.length_map, List.length_range] at hle
      omega
    · by_contra hlt
      push_neg at hlt
      exact h ((hmemd _).mpr (hk _ hlt))

/-- Witness for C7 at concrete data: entries on today (day 10) and
yesterday give current streak at least 2, and the streak cannot exceed
2 when only those two days are present. -/
theorem calculateStreaks_current_spec_witness :
    2 ≤ (calculateStreaks [{ day := 10 }, { day := 9 }] 10).current ∧
      (calculateStreaks [{ day := 10 }, { day := 9 }] 10).current ≤ 2 := by
  have h := calculateStreaks_current_spec [{ day := 10 }, { day := 9 }] 10
  constructor
  · apply h.2 2
    intro j hj
    interval_cases j
    · exact ⟨{ day := 10 }, by simp, by norm_num⟩
    · exact ⟨{ day := 9 }, by simp, by norm_num⟩
  · by_contra hgt
    push_neg at hgt
    obtain ⟨e, he, hday⟩ := h.1 2 hgt
    rcases List.mem_cons.mp he with rfl | he
    · simp at hday
    · rcases List.mem_cons.mp he with rfl | he
      · simp at hday
      · cases he

/-- Per-entry points contribution of the `recalculateStats` loop. -/
theorem statsAcc_totalPoints :
    ∀ (fs : List Entry) (s : StatsAcc),
      (applyAll statsUpd fs s).totalPoints =
        s.totalPoints + 10 * (fs.countP typeHasPositive : ℤ)
          - 5 * (fs.countP (fun e => !typeHasPositive e && typeHasNegative e) : ℤ)
          + 5 * (fs.countP (fun e => !typeHasPositive e && !typeHasNegative e) : ℤ)
  | [], s => by simp [applyAll]
  | e :: t, s => by
    have ih := statsAcc_totalPoints t (statsUpd e s)
    have hfold : applyAll statsUpd (e :: t) s = applyAll statsUpd t (statsUpd e s) := rfl
    rw [hfold, ih]
    have hp : (statsUpd e s).totalPoints = s.totalPoints +
        (if typeHasPositive e then 10 else if typeHasNegative e then -5 else 5) := rfl
    rw [hp]
    simp only [List.countP_cons]
    cases h1 : typeHasPositive e <;> cases h2 : typeHasNegative e <;>
      simp [h1, h2] <;> push_cast <;> ring

/-- C6: the recomputed total points equal 10 per positive-type entry,
−5 per negative-type entry, +5 per other entry, +50 per goal with
`currentValue ≥ targetValue`, plus 5 per day of the recomputed current
streak. -/
theorem recalculateStats_totalPoints (entries : List Entry) (goals : List Goal)
    (today : ℤ) (priorLongest : ℕ) :
    (recalculateStats entries goals today priorLongest).totalPoints =
      10 * (entries.countP typeHasPositive : ℤ)
        - 5 * (entries.countP (fun e => !typeHasPositive e && typeHasNegative e) : ℤ)
        + 5 * (entries.countP (fun e => !typeHasPositive e && !typeHasNegative e) : ℤ)
        + 50 * (goals.countP (fun g => g.currentValue ≥ g.targetValue) : ℤ)
        + 5 * ((recalculateStats entries goals today priorLongest).currentStreak : ℤ) := by
  have hfilter : (goals.filter (fun g => g.currentValue ≥ g.targetValue)).length =
      goals.countP (fun g => g.currentValue ≥ g.targetValue) :=
    (List.countP_eq_length_filter _ _).symm
  simp only [recalculateStats]
  rw [statsAcc_totalPoints, hfilter]
  simp only [POINTS_CONFIG]
  ring

/-- C10: no gamification request ever creates a badge named
`Insight Seeker`, `Streak Saver` or `Iron Will` — their requirement keys
(`insightsViewed`, `streakSaved`, `positiveRatio`) are never tested by
the badge-check pass, so for every stats state they stay unearned. -/
theorem checkForNewBadges_unreachable_badges (existingNames : List String)
    (s : RecalcStats) :
    ∀ nb ∈ checkForNewBadges existingNames s,
      nb.name ≠ "Insight Seeker" ∧ nb.name ≠ "Streak Saver" ∧ nb.name ≠ "Iron Will" := by
  intro nb hnb
  obtain ⟨bd, hbd, hf⟩ := List.mem_filterMap.mp hnb
  rw [checkForNewBadges] at *
  fin_cases hbd <;>
    (split_ifs at hf with h1 h2 <;>
      first
        | exact Option.noConfusion hf
        | (injection hf with hf2; rw [← hf2]; decide)
        | simp [earnedB, reqTest] at h2)

/-- Witness for C10: with no existing badges and a one-entry stats
state, the check emits `First Step` — whose name is none of the three
unreachable badges. -/
theorem checkForNewBadges_unreachable_badges_witness :
    ∃ nb ∈ checkForNewBadges [] demoStats,
      nb.name ≠ "Insight Seeker" ∧ nb.name ≠ "Streak Saver" ∧ nb.name ≠ "Iron Will" :=
  ⟨{ name := "First Step", description := "Log your first habit", icon := "🎯",
     category := "consistency", requirement := { entries := some 1 } },
   by decide,
   checkForNewBadges_unreachable_badges [] demoStats _ (by decide)⟩

/-- The sentiment inference only ever returns one of the three labels. -/
theorem inferSentimentFromText_mem (t : String) :
    inferSentimentFromText t = "positive" ∨ inferSentimentFromText t = "neutral" ∨
      inferSentimentFromText t = "negative" := by
  simp only [inferSentimentFromText]
  split_ifs <;> simp

/-- C8: the deterministic fallback classifier is total and always
returns a non-empty activity, a non-empty type and one of the three
sentiment labels; when no behavior rule matches, activity defaults to
`unspecified activity`, type to `neutral activity`, category to
`habits`, and sentiment is computed by the independent sentiment
inference. -/
theorem enhancedFallbackParse_defaults (text : String) :
    ((enhancedFallbackParse text).activity ≠ "" ∧
     (enhancedFallbackParse text).type ≠ "" ∧
     ((enhancedFallbackParse text).sentiment = "positive" ∨
      (enhancedFallbackParse text).sentiment = "neutral" ∨
      (enhancedFallbackParse text).sentiment = "negative")) ∧
    ((∀ rule ∈ behaviorPatterns, ∀ p ∈ rule.patterns, ¬ strIncludes (lowerStr text) p) →
      (enhancedFallbackParse text).activity = "unspecified activity" ∧
      (enhancedFallbackParse text).type = "neutral activity" ∧
      (enhancedFallbackParse text).category = "habits" ∧
      (enhancedFallbackParse text).sentiment = inferSentimentFromText text) := by
  cases hfind : behaviorPatterns.find?
      (fun r => r.patterns.any (fun p => strIncludes (lowerStr text) p)) with
  | none =>
    constructor
    · refine ⟨?_, ?_, ?_⟩
      · simp [enhancedFallbackParse, hfind]
      · simp [enhancedFallbackParse, hfind]
      · have h3 := inferSentimentFromText_mem text
        simp only [enhancedFallbackParse, hfind]
        simpa using h3
    · intro _
      refine ⟨?_, ?_, ?_, ?_⟩ <;> simp [enhancedFallbackParse, hfind]
  | some rule =>
    have hmem : rule ∈ behaviorPatterns := List.mem_of_find?_eq_some hfind
    have hact : rule.activity ≠ "" :=
      (by decide : ∀ r ∈ behaviorPatterns, r.activity ≠ "") rule hmem
    have htyp : rule.type ≠ "" :=
      (by decide : ∀ r ∈ behaviorPatterns, r.type ≠ "") rule hmem
    have hsent : rule.sentiment = "positive" ∨ rule.sentiment = "neutral" ∨
        rule.sentiment = "negative" :=
      (by decide : ∀ r ∈ behaviorPatterns,
        r.sentiment = "positive" ∨ r.sentiment = "neutral" ∨ r.sentiment = "negative")
        rule hmem
    constructor
    · refine ⟨?_, ?_, ?_⟩
      · simpa [enhancedFallbackParse, hfind] using hact
      · simpa [enhancedFallbackParse, hfind] using htyp
      · by_cases hn : rule.sentiment = "neutral"
        · have h3 := inferSentimentFromText_mem text
          simp only [enhancedFallbackParse, hfind, hn]
          simpa using h3
        · simp only [enhancedFallbackParse, hfind]
          simp only [if_neg hn]
          simpa using hsent
    · intro hno
      exfalso
      have hpred := List.find?_some hfind
      simp only [List.any_eq_true] at hpred
      obtain ⟨p, hp, hinc⟩ := hpred
      exact hno rule hmem p hp (by simpa using hinc)

/-- Witness for C8 at the no-rule text `"zzz"`: all defaults fire. -/
theorem enhancedFallbackParse_defaults_witness :
    (enhancedFallbackParse "zzz").activity = "unspecified activity" ∧
    (enhancedFallbackParse "zzz").type = "neutral activity" ∧
    (enhancedFallbackParse "zzz").category = "habits" ∧
    (enhancedFallbackParse "zzz").sentiment = inferSentimentFromText "zzz" :=
  (enhancedFallbackParse_defaults "zzz").2 (by decide)

/-- The goal loop never touches the entries table. -/
theorem runGoalUpdates_entries (updFails : ℕ → Bool) (now : Now) (act : String) :
    ∀ (gs : List Goal) (db : DB),
      (runGoalUpdates updFails now act db gs).entries = db.entries
  | [], _ => rfl
  | g :: rest, db => by
    cases hp : periodPred now g.period with
    | none =>
      simp only [runGoalUpdates, hp]
      exact runGoalUpdates_entries updFails now act rest db
    | some pred =>
      simp only [runGoalUpdates, hp]
      by_cases hu : updFails g.id = true
      · rw [if_pos hu]
      · rw [if_neg hu]
        exact (runGoalUpdates_entries updFails now act rest _).trans rfl

/-- `updateGoalProgress` never touches the entries table, whatever
fails. -/
theorem updateGoalProgress_entries (findFails : Bool) (updFails : ℕ → Bool) (now : Now)
    (activity : String) (quantity : ℚ) (db : DB) :
    (updateGoalProgress findFails updFails now activity quantity db).entries = db.entries := by
  rw [updateGoalProgress]
  by_cases hf : findFails
  · rw [if_pos hf]
  · rw [if_neg hf]
    exact runGoalUpdates_entries updFails now activity _ db

/-- C9: whatever part of the goal-progress update fails, the failure
never reaches the entry-creation caller: for every failure schedule the
request still answers success with the stored record, and the entry is
persisted in the final store. -/
theorem POST_goal_failure_isolated (findFails : Bool) (updFails : ℕ → Bool)
    (now : Now) (body : PostBody) (db : DB)
    (hraw : body.rawText ≠ "") (hact : body.activity ≠ "") :
    (POST false findFails updFails now body db).1 = .ok (mkEntry body now) ∧
    mkEntry body now ∈ (POST false findFails updFails now body db).2.entries := by
  have hguard : (body.rawText = "" || body.activity = "") = false := by
    simp [hraw, hact]
  constructor
  · simp only [POST, hguard, Bool.false_eq_true, if_false, if_neg]
  · simp only [POST, hguard, Bool.false_eq_true, if_false, if_neg]
    by_cases hq : (quantTruthy body.quantity && decide (body.activity ≠ "")) = true
    · rw [if_pos hq, updateGoalProgress_entries]
      exact List.mem_append_right _ (List.mem_singleton.mpr rfl)
    · rw [if_neg hq]
      exact List.mem_append_right _ (List.mem_singleton.mpr rfl)

/-- Witness for C9: a concrete quantified entry against a store with one
matching goal, with every goal-update operation failing — the response
is still a success carrying the stored record, which is persisted. -/
theorem POST_goal_failure_isolated_witness :
    (POST false true (fun _ => true) ⟨100, 3⟩
        { rawText := "ran 5km", activity := "run", quantity := some 5 }
        ⟨[], [⟨1, "run daily", 10, 0, "daily", true⟩]⟩).1 =
      .ok (mkEntry { rawText := "ran 5km", activity := "run", quantity := some 5 } ⟨100, 3⟩) ∧
    mkEntry { rawText := "ran 5km", activity := "run", quantity := some 5 } ⟨100, 3⟩ ∈
      (POST false true (fun _ => true) ⟨100, 3⟩
        { rawText := "ran 5km", activity := "run", quantity := some 5 }
        ⟨[], [⟨1, "run daily", 10, 0, "daily", true⟩]⟩).2.entries :=
  POST_goal_failure_isolated true (fun _ => true) ⟨100, 3⟩
    { rawText := "ran 5km", activity := "run", quantity := some 5 }
    ⟨[], [⟨1, "run daily", 10, 0, "daily", true⟩]⟩ (by decide) (by decide)

/-- C2 counterexample: on day 0 the positive count (2) equals the
negative count (2) and both exceed the neutral count (0), yet the
dominant sentiment is `"negative"`, not `"positive"`; on day 1 the
negative count (1) equals the neutral count (1) with fewer positives,
yet the dominant sentiment is `"neutral"`, not `"negative"`. -/
theorem generateSentimentHeatmapDaily_tie_counterexample :
    (generateSentimentHeatmapDaily demoSentEntries).map
        (fun r => (r.positive, r.neutral, r.negative, r.dominantSentiment)) =
      [(2, 0, 2, "negative"), (0, 1, 1, "neutral")] := by
  decide

/-! ### Habit stacks: the string order and the hyphen-join dedup key -/

/-- The code-unit order is asymmetric. -/
theorem charListLt_asymm :
    ∀ as bs : List Char, charListLt as bs = true → charListLt bs as = false
  | [], [] => by simp [charListLt]
  | [], _ :: _ => by simp [charListLt]
  | _ :: _, [] => by simp [charListLt]
  | a :: as, b :: bs => by
    by_cases h1 : a.toNat < b.toNat
    · intro _
      have h2 : ¬b.toNat < a.toNat := by omega
      simp [charListLt, h1, h2]
    · by_cases h2 : b.toNat < a.toNat
      · intro h
        simp [charListLt, h1, h2] at h
      · intro h
        simp only [charListLt, if_neg h1, if_neg h2] at h ⊢
        exact charListLt_asymm as bs h

/-- The code-unit order is connected: mutually incomparable lists are
equal. -/
theorem charListLt_conn :
    ∀ as bs : List Char, charListLt as bs = false → charListLt bs as = false → as = bs
  | [], [] => fun _ _ => rfl
  | [], _ :: _ => by simp [charListLt]
  | _ :: _, [] => by intro _ h; simp [charListLt] at h
  | a :: as, b :: bs => by
    intro h h'
    by_cases h1 : a.toNat < b.toNat
    · simp [charListLt, h1] at h
    · by_cases h2 : b.toNat < a.toNat
      · simp [charListLt, h2] at h'
      · have h3 : a.toNat = b.toNat := by omega
        have hab : a = b := Char.eq_of_val_eq (UInt32.ext h3)
        subst hab
        simp only [charListLt, if_neg h1] at h h'
        rw [charListLt_conn as bs h h']

/-- Strings with equal character lists are equal. -/
theorem string_toList_inj {s t : String} (h : s.toList = t.toList) : s = t := by
  cases s
  cases t
  exact congrArg String.mk (by simpa [String.toList] using h)

/-- Mutually incomparable strings are equal. -/
theorem strLtJS_conn {a b : String} (h : strLtJS a b = false)
    (h' : strLtJS b a = false) : a = b :=
  string_toList_inj (charListLt_conn _ _ h h')

/-- The dedup key only depends on the unordered pair. -/
theorem pairKey_comm (s t : Suggestion) (h1 : s.triggerHabit = t.linkedHabit)
    (h2 : s.linkedHabit = t.triggerHabit) : pairKey s = pairKey t := by
  simp only [pairKey, h1, h2]
  by_cases hlt : strLtJS t.triggerHabit t.linkedHabit = true
  · have h3 : strLtJS t.linkedHabit t.triggerHabit = false := charListLt_asymm _ _ hlt
    simp [hlt, h3]
  · by_cases hlt2 : strLtJS t.linkedHabit t.triggerHabit = true
    · simp [hlt, hlt2]
    · have heq : t.triggerHabit = t.linkedHabit :=
        strLtJS_conn (by simpa using hlt) (by simpa using hlt2)
      simp [hlt, hlt2, heq]

/-- Splitting a list at a separator absent from both prefixes is
unambiguous. -/
theorem splitHyphen_unique :
    ∀ as cs bs ds : List Char, ('-' : Char) ∉ as → ('-' : Char) ∉ cs →
      as ++ '-' :: bs = cs ++ '-' :: ds → as = cs ∧ bs = ds
  | [], [], bs, ds, _, _, h => by simpa using h
  | [], c :: cs, bs, ds, _, hc, h => by
    simp only [List.nil_append, List.cons_append, List.cons.injEq] at h
    exact absurd (by simp [← h.1]) hc
  | a :: as, [], bs, ds, ha, _, h => by
    simp only [List.nil_append, List.cons_append, List.cons.injEq] at h
    exact absurd (by simp [h.1]) ha
  | a :: as, c :: cs, bs, ds, ha, hc, h => by
    simp only [List.cons_append, List.cons.injEq] at h
    have htail := splitHyphen_unique as cs bs ds
      (fun hm => ha (List.mem_cons_of_mem _ hm))
      (fun hm => hc (List.mem_cons_of_mem _ hm)) h.2
    exact ⟨by rw [h.1, htail.1], htail.2⟩

/-- Character list of the hyphen join. -/
theorem toList_hyphen_join (x y : String) :
    (x ++ "-" ++ y).toList = x.toList ++ '-' :: y.toList := by
  cases x
  cases y
  simp [String.toList, String.append]

/-- Hyphen joins of hyphen-free strings determine both components. -/
theorem hyphen_join_inj {x1 y1 x2 y2 : String}
    (hx1 : ('-' : Char) ∉ x1.toList) (hx2 : ('-' : Char) ∉ x2.toList)
    (h : x1 ++ "-" ++ y1 = x2 ++ "-" ++ y2) : x1 = x2 ∧ y1 = y2 := by
  have htl := congrArg String.toList h
  rw [toList_hyphen_join, toList_hyphen_join] at htl
  obtain ⟨h1, h2⟩ := splitHyphen_unique _ _ _ _ hx1 hx2 htl
  exact ⟨string_toList_inj h1, string_toList_inj h2⟩

/-- For hyphen-free activity names the dedup key determines the
unordered pair. -/
theorem pairKey_inj (s t : Suggestion)
    (hs1 : ('-' : Char) ∉ s.triggerHabit.toList)
    (hs2 : ('-' : Char) ∉ s.linkedHabit.toList)
    (ht1 : ('-' : Char) ∉ t.triggerHabit.toList)
    (ht2 : ('-' : Char) ∉ t.linkedHabit.toList)
    (h : pairKey s = pairKey t) :
    (s.triggerHabit = t.triggerHabit ∧ s.linkedHabit = t.linkedHabit) ∨
    (s.triggerHabit = t.linkedHabit ∧ s.linkedHabit = t.triggerHabit) := by
  simp only [pairKey] at h
  by_cases c1 : strLtJS s.linkedHabit s.triggerHabit = true
  · by_cases c2 : strLtJS t.linkedHabit t.triggerHabit = true
    · rw [if_pos c1, if_pos c2] at h
      obtain ⟨e1, e2⟩ := hyphen_join_inj hs2 ht2 h
      exact Or.inl ⟨e2, e1⟩
    · rw [if_pos c1, if_neg c2] at h
      obtain ⟨e1, e2⟩ := hyphen_join_inj hs2 ht1 h
      exact Or.inr ⟨e2, e1⟩
  · by_cases c2 : strLtJS t.linkedHabit t.triggerHabit = true
    · rw [if_neg c1, if_pos c2] at h
      obtain ⟨e1, e2⟩ := hyphen_join_inj hs1 ht2 h
      exact Or.inr ⟨e1, e2⟩
    · rw [if_neg c1, if_neg c2] at h
      obtain ⟨e1, e2⟩ := hyphen_join_inj hs1 ht1 h
      exact Or.inl ⟨e1, e2⟩

/-! ### Habit stacks: the counting maps against the day sets -/

/-- Count of an element of a duplicate-free list as an indicator. -/
theorem nodup_count_indicator [DecidableEq α] (l : List α) (hnd : l.Nodup) (y : α) :
    l.count y = if y ∈ l then 1 else 0 := by
  by_cases h : y ∈ l
  · rw [if_pos h]
    exact List.count_eq_one_of_mem hnd h
  · rw [if_neg h]
    exact List.count_eq_zero_of_not_mem h

/-- Set-deduplication keeps exactly the original members. -/
theorem mem_uniqFirst [DecidableEq α] (l : List α) (a : α) :
    a ∈ uniqFirst l ↔ a ∈ l := by
  rw [uniqFirst, mem_uniqFirstAux]
  simp

/-- Lookup after one day-count bump. -/
theorem aGet_bumpCnt (m : List (String × ℕ)) (a b : String) :
    aGet a (bumpCnt m b) =
      if b = a then some ((aGet a m).getD 0 + 1) else aGet a m := by
  by_cases h : b = a
  · subst h
    simp [bumpCnt, aGet_upsert_self]
  · simp only [bumpCnt]
    rw [aGet_upsert_ne a b _ _ (fun hh => h hh.symm), if_neg h]

/-- One day-list step of the day-set counters. -/
theorem specCnt_cons (u : List String) (ds : List (List String)) (a : String) :
    specCnt (u :: ds) a = specCnt ds a + if a ∈ u then 1 else 0 := by
  simp [specCnt, List.countP_cons]

/-- One day-list step of the co-occurrence day counter. -/
theorem specCo_cons (u : List String) (ds : List (List String)) (a b : String) :
    specCo (u :: ds) a b = specCo ds a b + if a ∈ u ∧ b ∈ u then 1 else 0 := by
  simp [specCo, List.countP_cons]

/-- Lookup after folding one day's bumps. -/
theorem aGet_foldl_bumpCnt :
    ∀ (u : List String) (m : List (String × ℕ)) (a : String),
      aGet a (u.foldl bumpCnt m) =
        if u.count a = 0 then aGet a m
        else some ((aGet a m).getD 0 + u.count a)
  | [], m, a => by simp
  | x :: t, m, a => by
    rw [List.foldl_cons, aGet_foldl_bumpCnt t (bumpCnt m x) a, aGet_bumpCnt,
      List.count_cons]
    simp only [beq_iff_eq]
    by_cases hxa : x = a
    · rw [if_pos hxa, if_pos hxa, if_neg (by omega : ¬(t.count a + 1 = 0))]
      by_cases ht : t.count a = 0
      · rw [if_pos ht, ht]
      · rw [if_neg ht, Option.getD_some]
        congr 1
        omega
    · rw [if_neg hxa, if_neg hxa, Nat.add_zero]

/-- Day counts after folding all day lists: the lookup is the number of
day sets containing the activity, absent iff that number is zero. -/
theorem aGet_cntFold :
    ∀ (ls : List (List String)) (m : List (String × ℕ)) (a : String),
      aGet a (ls.foldl (fun m u => (uniqFirst u).foldl bumpCnt m) m) =
        if specCnt (ls.map uniqFirst) a = 0 then aGet a m
        else some ((aGet a m).getD 0 + specCnt (ls.map uniqFirst) a)
  | [], m, a => by simp [specCnt]
  | u :: ls, m, a => by
    rw [List.foldl_cons, aGet_cntFold ls _ a, aGet_foldl_bumpCnt,
      nodup_count_indicator (uniqFirst u) (nodup_uniqFirstAux u []) a,
      List.map_cons, specCnt_cons]
    by_cases hm : a ∈ uniqFirst u
    · rw [if_pos hm, if_neg (one_ne_zero),
        if_neg (by omega : ¬(specCnt (ls.map uniqFirst) a + 1 = 0)),
        Option.getD_some]
      by_cases hz : specCnt (ls.map uniqFirst) a = 0
      · rw [if_pos hz, hz]
      · rw [if_neg hz]
        congr 1
        omega
    · rw [if_neg hm, if_pos rfl, Nat.add_zero]

/-- `activityCounts[a] || 1` equals the day count of `a` when that
count is positive. -/
theorem cntD_cntFold (ls : List (List String)) (a : String)
    (h : specCnt (ls.map uniqFirst) a ≠ 0) :
    cntD (ls.foldl (fun m u => (uniqFirst u).foldl bumpCnt m) []) a =
      specCnt (ls.map uniqFirst) a := by
  simp only [cntD, aGet_cntFold, if_neg h, aGet]
  simp [h]

/-- Lookup after one co-occurrence bump. -/
theorem coGet_coBump (m : List (String × List (String × ℕ))) (x y a b : String) :
    coGet (coBump m x y) a b = coGet m a b + if x = a ∧ y = b then 1 else 0 := by
  by_cases hxa : x = a
  · subst hxa
    simp only [coGet, coBump]
    rw [aGet_upsert_self]
    simp only [Option.getD_some]
    rw [aGet_bumpCnt]
    by_cases hyb : y = b
    · subst hyb
      simp
    · simp [hyb]
  · simp only [coGet, coBump]
    rw [aGet_upsert_ne a x _ _ (fun h => hxa h.symm)]
    simp [hxa]

/-- Indicator bookkeeping for one step of the pair loop. -/
theorem pairIndicator (P Q R S : Prop) [Decidable P] [Decidable Q] [Decidable R]
    [Decidable S] (g nb na : ℕ) :
    g + (if P ∧ R then 1 else 0) + (if S ∧ Q then 1 else 0) +
      (if P then nb else 0) + (if Q then na else 0)
    = g + (if P then nb + (if R then 1 else 0) else 0) +
      (if Q then na + (if S then 1 else 0) else 0) := by
  by_cases hP : P <;> by_cases hQ : Q <;> by_cases hR : R <;> by_cases hS : S <;>
    simp [hP, hQ, hR, hS] <;> omega

/-- Indicator bookkeeping for one day step of the pair counter. -/
theorem stackIndicator (P P' Q Q' A B D : Prop) [Decidable P] [Decidable P']
    [Decidable Q] [Decidable Q'] [Decidable A] [Decidable B] [Decidable D] (g : ℕ)
    (hPP : P ↔ P') (hQQ : Q ↔ Q') (hPQ : P → Q → D) (hPA : P → ¬A) (hQB : Q → ¬B)
    (hDPQ : D → P → Q) (hDQP : D → Q → P) :
    g + (if P then (if B then 1 else 0) else 0) + (if Q then (if A then 1 else 0) else 0) +
      (if ¬D ∧ A ∧ B then 1 else 0)
    = g + (if ¬D ∧ (P' ∨ A) ∧ (Q' ∨ B) then 1 else 0) := by
  simp only [← hPP, ← hQQ]
  by_cases hP : P <;> by_cases hQ : Q <;> by_cases hA : A <;> by_cases hB : B <;>
    by_cases hD : D <;> simp [hP, hQ, hA, hB, hD] <;>
    first
      | omega
      | exact absurd (hPQ hP hQ) hD
      | exact absurd hA (hPA hP)
      | exact absurd hB (hQB hQ)
      | exact absurd (hDPQ hD hP) hQ
      | exact absurd (hDQP hD hQ) hP

/-- One head element's pair loop adds to the symmetric counts. -/
theorem coGet_pairFold :
    ∀ (rest : List String) (m : List (String × List (String × ℕ))) (x a b : String),
      coGet (rest.foldl (fun m2 c => coBump (coBump m2 x c) c x) m) a b =
        coGet m a b + (if x = a then rest.count b else 0) +
          (if x = b then rest.count a else 0)
  | [], m, x, a, b => by simp
  | c :: rest, m, x, a, b => by
    rw [List.foldl_cons, coGet_pairFold rest _ x a b, coGet_coBump, coGet_coBump]
    simp only [List.count_cons, beq_iff_eq]
    exact pairIndicator (x = a) (x = b) (c = b) (c = a) (coGet m a b)
      (rest.count b) (rest.count a)

/-- `dayPairs` adds one to the symmetric count of each unordered pair of
distinct elements of a duplicate-free day set. -/
theorem coGet_dayPairs :
    ∀ (u : List String) (m : List (String × List (String × ℕ))) (a b : String),
      u.Nodup →
      coGet (dayPairs u m) a b =
        coGet m a b + if a ≠ b ∧ a ∈ u ∧ b ∈ u then 1 else 0
  | [], m, a, b, _ => by simp [dayPairs]
  | x :: rest, m, a, b, hnd => by
    obtain ⟨hx, hrest⟩ := List.nodup_cons.mp hnd
    rw [dayPairs, coGet_dayPairs rest _ a b hrest, coGet_pairFold,
      nodup_count_indicator rest hrest a, nodup_count_indicator rest hrest b]
    simp only [List.mem_cons]
    exact stackIndicator (x = a) (a = x) (x = b) (b = x) (a ∈ rest) (b ∈ rest) (a = b)
      (coGet m a b) eq_comm eq_comm (fun h1 h2 => h1 ▸ h2) (fun h hm => hx (h ▸ hm))
      (fun h hm => hx (h ▸ hm)) (fun hd hp => hp.trans hd) (fun hd hq => hq.trans hd.symm)

/-- The two components of the `processDay` fold. -/
theorem foldl_processDay_eq :
    ∀ (ls : List (List String)) (c : List (String × List (String × ℕ)))
      (m : List (String × ℕ)),
      ls.foldl processDay (c, m) =
        (ls.foldl (fun c u => dayPairs (uniqFirst u) c) c,
         ls.foldl (fun m u => (uniqFirst u).foldl bumpCnt m) m)
  | [], _, _ => rfl
  | u :: ls, c, m => by
    rw [List.foldl_cons, List.foldl_cons, List.foldl_cons]
    exact foldl_processDay_eq ls _ _

/-- Co-occurrence lookup after folding all days: the symmetric count of
a distinct pair is the number of day sets containing both, and the
diagonal stays untouched. -/
theorem coGet_coFold :
    ∀ (ls : List (List String)) (c : List (String × List (String × ℕ)))
      (a b : String),
      coGet (ls.foldl (fun c u => dayPairs (uniqFirst u) c) c) a b =
        coGet c a b + if a = b then 0 else specCo (ls.map uniqFirst) a b
  | [], c, a, b => by simp [specCo]
  | u :: ls, c, a, b => by
    rw [List.foldl_cons, coGet_coFold ls _ a b,
      coGet_dayPairs (uniqFirst u) c a b (nodup_uniqFirstAux u [])]
    rw [List.map_cons, specCo_cons]
    by_cases hab : a = b
    · simp [hab]
    · by_cases hm : a ∈ uniqFirst u ∧ b ∈ uniqFirst u
      · rw [if_pos ⟨hab, hm.1, hm.2⟩, if_neg hab, if_neg hab, if_pos hm]
        omega
      · rw [if_neg (fun hc => hm ⟨hc.2.1, hc.2.2⟩), if_neg hab, if_neg hab,
          if_neg hm]
        omega

/-! ### Habit stacks: map well-formedness and emission membership -/

/-- Entries of an upserted map: an untouched original entry, or the
updated key holding `f` of its old value (or of `init` when fresh). -/
theorem mem_upsert [DecidableEq κ] (k : κ) (f : β → β) (init : β) :
    ∀ (m : List (κ × β)) (p : κ × β), p ∈ upsert k f init m →
      p ∈ m ∨ ∃ v, p = (k, f v) ∧ (v = init ∨ (k, v) ∈ m)
  | [], p, h => by
    simp only [upsert, List.mem_singleton] at h
    exact Or.inr ⟨init, h, Or.inl rfl⟩
  | (k', v') :: t, p, h => by
    simp only [upsert] at h
    by_cases hk : k' = k
    · rw [if_pos hk] at h
      rcases List.mem_cons.mp h with h1 | h1
      · exact Or.inr ⟨v', by rw [h1, hk], Or.inr (by rw [← hk]; exact List.mem_cons_self _ _)⟩
      · exact Or.inl (List.mem_cons_of_mem _ h1)
    · rw [if_neg hk] at h
      rcases List.mem_cons.mp h with h1 | h1
      · exact Or.inl (h1 ▸ List.mem_cons_self _ _)
      · rcases mem_upsert k f init t p h1 with h2 | ⟨v, hv, hsrc⟩
        · exact Or.inl (List.mem_cons_of_mem _ h2)
        · rcases hsrc with hsrc | hsrc
          · exact Or.inr ⟨v, hv, Or.inl hsrc⟩
          · exact Or.inr ⟨v, hv, Or.inr (List.mem_cons_of_mem _ hsrc)⟩

/-- Upserting keeps keys pairwise distinct. -/
theorem nodup_keys_upsert [DecidableEq κ] (k : κ) (f : β → β) (init : β)
    (m : List (κ × β)) (h : (m.map Prod.fst).Nodup) :
    ((upsert k f init m).map Prod.fst).Nodup := by
  rw [keys_upsert]
  by_cases hs : (aGet k m).isSome
  · simpa [hs] using h
  · simp only [hs, if_false, Bool.false_eq_true]
    rw [List.nodup_append]
    refine ⟨h, List.nodup_singleton _, ?_⟩
    intro a ha hb
    simp only [List.mem_singleton] at hb
    subst hb
    exact hs (aGet_isSome_of_mem_keys _ m ha)

/-- One co-occurrence bump keeps the nested map well-formed. -/
theorem coNodup_coBump (m : List (String × List (String × ℕ))) (x y : String)
    (h : CoNodup m) : CoNodup (coBump m x y) := by
  obtain ⟨h1, h2⟩ := h
  refine ⟨nodup_keys_upsert x _ [] m h1, ?_⟩
  intro p hp
  rcases mem_upsert x _ [] m p hp with hm | ⟨v, hv, hsrc⟩
  · exact h2 p hm
  · rcases hsrc with rfl | hvm
    · rw [hv]
      show ((bumpCnt [] y).map Prod.fst).Nodup
      exact nodup_keys_upsert y (· + 1) 0 [] (by simp)
    · rw [hv]
      show ((bumpCnt v y).map Prod.fst).Nodup
      exact nodup_keys_upsert y (· + 1) 0 v (h2 (x, v) hvm)

/-- The pair loop keeps the nested map well-formed. -/
theorem coNodup_pairFold :
    ∀ (rest : List String) (m : List (String × List (String × ℕ))) (x : String),
      CoNodup m →
      CoNodup (rest.foldl (fun m2 c => coBump (coBump m2 x c) c x) m)
  | [], _, _, h => h
  | c :: rest, m, x, h => by
    rw [List.foldl_cons]
    exact coNodup_pairFold rest _ x (coNodup_coBump _ c x (coNodup_coBump _ x c h))

/-- `dayPairs` keeps the nested map well-formed. -/
theorem coNodup_dayPairs :
    ∀ (u : List String) (m : List (String × List (String × ℕ))),
      CoNodup m → CoNodup (dayPairs u m)
  | [], _, h => h
  | x :: rest, m, h => by
    rw [dayPairs]
    exact coNodup_dayPairs rest _ (coNodup_pairFold rest m x h)

/-- The day fold keeps the nested map well-formed. -/
theorem coNodup_coFold :
    ∀ (ls : List (List String)) (c : List (String × List (String × ℕ))),
      CoNodup c →
      CoNodup (ls.foldl (fun c u => dayPairs (uniqFirst u) c) c)
  | [], _, h => h
  | u :: ls, c, h => by
    rw [List.foldl_cons]
    exact coNodup_coFold ls _ (coNodup_dayPairs (uniqFirst u) c h)

/-- In a well-formed nested map, a stored entry is its own lookup. -/
theorem coGet_of_mem (co : List (String × List (String × ℕ)))
    (h : CoNodup co) (p : String × List (String × ℕ)) (q : String × ℕ)
    (hp : p ∈ co) (hq : q ∈ p.2) : coGet co p.1 q.1 = q.2 := by
  obtain ⟨h1, h2⟩ := h
  have e1 : aGet p.1 co = some p.2 :=
    aGet_of_mem_nodup p.1 p.2 co h1 (by simpa using hp)
  have e2 : aGet q.1 p.2 = some q.2 :=
    aGet_of_mem_nodup q.1 q.2 p.2 (h2 p hp) (by simpa using hq)
  simp [coGet, e1, e2]

/-- A positive lookup of the nested map comes from stored entries. -/
theorem exists_mem_of_coGet_pos (co : List (String × List (String × ℕ)))
    (a b : String) (h : 1 ≤ coGet co a b) :
    ∃ inner, (a, inner) ∈ co ∧ (b, coGet co a b) ∈ inner := by
  cases hA : aGet a co with
  | none => rw [coGet, hA] at h; simp [aGet] at h
  | some inner =>
    cases hB : aGet b inner with
    | none => rw [coGet, hA] at h; simp [hB] at h
    | some n =>
      refine ⟨inner, mem_of_aGet a inner co hA, ?_⟩
      have hn : coGet co a b = n := by simp [coGet, hA, hB]
      rw [hn]
      exact mem_of_aGet b n inner hB

/-- Membership in the emitted suggestion list, before sort and dedup. -/
theorem mem_suggestionsOf (co : List (String × List (String × ℕ)))
    (ac : List (String × ℕ)) (s : Suggestion) :
    s ∈ suggestionsOf co ac ↔
      ∃ p ∈ co, ∃ q ∈ p.2,
        (1/2 ≤ (q.2 : ℚ) / ((min (cntD ac p.1) (cntD ac q.1) : ℕ) : ℚ) ∧ 2 ≤ q.2) ∧
        s = mkSuggestion p.1 q.1
          (jsRound ((q.2 : ℚ) / ((min (cntD ac p.1) (cntD ac q.1) : ℕ) : ℚ) * 100)) := by
  simp only [suggestionsOf, List.mem_flatMap, List.mem_filterMap]
  constructor
  · rintro ⟨p, hp, q, hq, hf⟩
    split_ifs at hf with hc
    exact ⟨p, hp, q, hq, hc, (Option.some.inj hf).symm⟩
  · rintro ⟨p, hp, q, hq, hc, rfl⟩
    exact ⟨p, hp, q, hq, by rw [if_pos hc]⟩

/-- Division bound against the halved minimum, in the naturals. -/
theorem half_le_div_iff (c m : ℕ) (hm : 0 < m) :
    1/2 ≤ (c : ℚ) / ((m : ℕ) : ℚ) ↔ m ≤ 2 * c := by
  have hm2 : (0 : ℚ) < (m : ℚ) := by exact_mod_cast hm
  rw [le_div_iff hm2]
  constructor
  · intro h
    have h2 : (m : ℚ) ≤ 2 * c := by linarith
    exact_mod_cast h2
  · intro h
    have h2 : (m : ℚ) ≤ 2 * c := by exact_mod_cast h
    linarith

/-- A pair's co-occurrence days are days of its first component. -/
theorem specCo_le_specCnt_left (ds : List (List String)) (a b : String) :
    specCo ds a b ≤ specCnt ds a := by
  simp only [specCo, specCnt]
  refine List.countP_mono_left (fun u _ h => ?_)
  simp only [Bool.and_eq_true, decide_eq_true_eq] at h ⊢
  exact h.1

/-- A pair's co-occurrence days are days of its second component. -/
theorem specCo_le_specCnt_right (ds : List (List String)) (a b : String) :
    specCo ds a b ≤ specCnt ds b := by
  simp only [specCo, specCnt]
  refine List.countP_mono_left (fun u _ h => ?_)
  simp only [Bool.and_eq_true, decide_eq_true_eq] at h ⊢
  exact h.2

/-- A pair with positive co-occurrence shares a concrete day set. -/
theorem exists_day_of_specCo_pos (ds : List (List String)) (a b : String)
    (h : 0 < specCo ds a b) : ∃ u ∈ ds, a ∈ u ∧ b ∈ u := by
  obtain ⟨u, hu, hp⟩ := List.countP_pos_iff.mp h
  refine ⟨u, hu, ?_⟩
  simpa [Bool.and_eq_true, decide_eq_true_eq] using hp

/-- The assembled co-occurrence lookup counts shared days. -/
theorem coCounts_fst_coGet (dls : List (List String)) (a b : String) :
    coGet (coCounts dls).1 a b =
      if a = b then 0 else specCo (dls.map uniqFirst) a b := by
  rw [coCounts, foldl_processDay_eq]
  show coGet (dls.foldl (fun c u => dayPairs (uniqFirst u) c)
    ([] : List (String × List (String × ℕ)))) a b = _
  rw [coGet_coFold]
  simp [coGet, aGet]

/-- The assembled activity-count lookup (`|| 1`) is the day count when
positive. -/
theorem coCounts_snd_cntD (dls : List (List String)) (a : String)
    (h : specCnt (dls.map uniqFirst) a ≠ 0) :
    cntD (coCounts dls).2 a = specCnt (dls.map uniqFirst) a := by
  rw [coCounts, foldl_processDay_eq]
  show cntD (dls.foldl (fun m u => (uniqFirst u).foldl bumpCnt m)
    ([] : List (String × ℕ))) a = _
  exact cntD_cntFold dls a h

/-- The assembled co-occurrence map is well-formed. -/
theorem coNodup_coCounts (dls : List (List String)) : CoNodup (coCounts dls).1 := by
  rw [coCounts, foldl_processDay_eq]
  show CoNodup (dls.foldl (fun c u => dayPairs (uniqFirst u) c) [])
  exact coNodup_coFold dls [] ⟨by simp, by simp⟩

/-! ### Habit stacks: raw, sorted and deduplicated pipelines -/

theorem mkSuggestion_triggerHabit (a b : String) (st : ℤ) :
    (mkSuggestion a b st).triggerHabit = a := rfl

theorem mkSuggestion_linkedHabit (a b : String) (st : ℤ) :
    (mkSuggestion a b st).linkedHabit = b := rfl

theorem mkSuggestion_strength (a b : String) (st : ℤ) :
    (mkSuggestion a b st).strength = st := rfl

/-- Unfolding of the raw pipeline. -/
theorem rawSuggestions_eq (entries : List Entry) (today : ℤ) :
    rawSuggestions entries today =
      suggestionsOf (coCounts (dayActivityLists entries today)).1
        (coCounts (dayActivityLists entries today)).2 := rfl

/-- The day sets are the deduplicated day activity lists. -/
theorem daySetsOf_eq (entries : List Entry) (today : ℤ) :
    daySetsOf entries today = (dayActivityLists entries today).map uniqFirst := rfl

/-- Soundness of emission: every emitted suggestion is over a
qualifying pair and carries the rounded-percent strength. -/
theorem coCounts_sound (dls : List (List String)) (s : Suggestion)
    (h : s ∈ suggestionsOf (coCounts dls).1 (coCounts dls).2) :
    qualifies (dls.map uniqFirst) s.triggerHabit s.linkedHabit ∧
    s.strength = specStrength (dls.map uniqFirst) s.triggerHabit s.linkedHabit := by
  rw [mem_suggestionsOf] at h
  obtain ⟨p, hp, q, hq, ⟨hhalf, h2⟩, rfl⟩ := h
  have hco := coGet_of_mem _ (coNodup_coCounts dls) p q hp hq
  rw [coCounts_fst_coGet] at hco
  by_cases hab : p.1 = q.1
  · rw [if_pos hab] at hco
    omega
  · rw [if_neg hab] at hco
    have hle1 := specCo_le_specCnt_left (dls.map uniqFirst) p.1 q.1
    have hle2 := specCo_le_specCnt_right (dls.map uniqFirst) p.1 q.1
    have hn1 : specCnt (dls.map uniqFirst) p.1 ≠ 0 := by omega
    have hn2 : specCnt (dls.map uniqFirst) q.1 ≠ 0 := by omega
    have hd1 := coCounts_snd_cntD dls p.1 hn1
    have hd2 := coCounts_snd_cntD dls q.1 hn2
    rw [hd1, hd2] at hhalf
    have hminpos :
        0 < min (specCnt (dls.map uniqFirst) p.1) (specCnt (dls.map uniqFirst) q.1) := by
      omega
    rw [← hco] at hhalf
    rw [mkSuggestion_triggerHabit, mkSuggestion_linkedHabit, mkSuggestion_strength]
    constructor
    · exact ⟨hab, (half_le_div_iff _ _ hminpos).mp hhalf, by omega⟩
    · simp only [specStrength]
      rw [hd1, hd2, hco]

/-- Completeness of emission: every qualifying ordered pair is emitted
with the rounded-percent strength. -/
theorem coCounts_emit (dls : List (List String)) (a b : String)
    (hab : a ≠ b)
    (hmin : min (specCnt (dls.map uniqFirst) a) (specCnt (dls.map uniqFirst) b) ≤
      2 * specCo (dls.map uniqFirst) a b)
    (h2 : 2 ≤ specCo (dls.map uniqFirst) a b) :
    mkSuggestion a b (specStrength (dls.map uniqFirst) a b) ∈
      suggestionsOf (coCounts dls).1 (coCounts dls).2 := by
  have hco : coGet (coCounts dls).1 a b = specCo (dls.map uniqFirst) a b := by
    rw [coCounts_fst_coGet, if_neg hab]
  have hn1 : specCnt (dls.map uniqFirst) a ≠ 0 := by
    have := specCo_le_specCnt_left (dls.map uniqFirst) a b
    omega
  have hn2 : specCnt (dls.map uniqFirst) b ≠ 0 := by
    have := specCo_le_specCnt_right (dls.map uniqFirst) a b
    omega
  have hd1 := coCounts_snd_cntD dls a hn1
  have hd2 := coCounts_snd_cntD dls b hn2
  obtain ⟨inner, hpmem, hqmem⟩ := exists_mem_of_coGet_pos ((coCounts dls).1) a b (by omega)
  rw [mem_suggestionsOf]
  have hminpos :
      0 < min (specCnt (dls.map uniqFirst) a) (specCnt (dls.map uniqFirst) b) := by
    omega
  have hc1 : 1/2 ≤ (coGet (coCounts dls).1 a b : ℚ) /
      ((min (cntD (coCounts dls).2 a) (cntD (coCounts dls).2 b) : ℕ) : ℚ) := by
    rw [hco, hd1, hd2]
    exact (half_le_div_iff _ _ hminpos).mpr hmin
  have hc2 : 2 ≤ coGet (coCounts dls).1 a b := by omega
  have hc3 : mkSuggestion a b (specStrength (dls.map uniqFirst) a b) =
      mkSuggestion a b (jsRound ((coGet (coCounts dls).1 a b : ℚ) /
        ((min (cntD (coCounts dls).2 a) (cntD (coCounts dls).2 b) : ℕ) : ℚ) * 100)) := by
    simp only [specStrength]
    rw [hco, hd1, hd2]
  exact ⟨(a, inner), hpmem, (b, coGet (coCounts dls).1 a b), hqmem, ⟨hc1, hc2⟩, hc3⟩

/-- Sorting keeps exactly the raw suggestions. -/
theorem mem_sortedSuggestions (entries : List Entry) (today : ℤ) (s : Suggestion) :
    s ∈ sortedSuggestions entries today ↔ s ∈ rawSuggestions entries today := by
  rw [sortedSuggestions]
  exact List.mem_mergeSort

/-- The sorted pipeline is descending in strength. -/
theorem sortedSuggestions_pairwise (entries : List Entry) (today : ℤ) :
    (sortedSuggestions entries today).Pairwise (fun x y => y.strength ≤ x.strength) := by
  rw [sortedSuggestions]
  have h := List.sorted_mergeSort
    (fun (a b c : Suggestion) (h1 : decide (b.strength ≤ a.strength) = true)
      (h2 : decide (c.strength ≤ b.strength) = true) => by
        simp only [decide_eq_true_eq] at h1 h2 ⊢
        omega)
    (fun (a b : Suggestion) => by
      simp only [Bool.or_eq_true, decide_eq_true_eq]
      omega)
    (rawSuggestions entries today)
  exact h.imp (fun hab => by simpa using hab)

/-- The dedup pass yields a sublist. -/
theorem dedupByKeyAux_sublist :
    ∀ (seen : List String) (l : List Suggestion),
      List.Sublist (dedupByKeyAux seen l) l
  | _, [] => List.nil_sublist _
  | seen, x :: t => by
    simp only [dedupByKeyAux]
    by_cases h : pairKey x ∈ seen
    · rw [if_pos h]
      exact (dedupByKeyAux_sublist seen t).cons x
    · rw [if_neg h]
      exact (dedupByKeyAux_sublist _ t).cons₂ x

/-- The dedup pass keeps a representative of every unseen key. -/
theorem mem_dedupByKeyAux_of_key :
    ∀ (seen : List String) (l : List Suggestion) (s : Suggestion),
      s ∈ l → pairKey s ∉ seen →
      ∃ t ∈ dedupByKeyAux seen l, pairKey t = pairKey s
  | _, [], s, hs, _ => absurd hs (List.not_mem_nil s)
  | seen, x :: t, s, hs, hns => by
    simp only [dedupByKeyAux]
    by_cases hx : pairKey x ∈ seen
    · rw [if_pos hx]
      rcases List.mem_cons.mp hs with rfl | hmem
      · exact absurd hx hns
      · exact mem_dedupByKeyAux_of_key seen t s hmem hns
    · rw [if_neg hx]
      by_cases hps : pairKey s = pairKey x
      · exact ⟨x, List.mem_cons_self _ _, hps.symm⟩
      · rcases List.mem_cons.mp hs with rfl | hmem
        · exact absurd rfl hps
        · obtain ⟨t2, ht2, hk⟩ := mem_dedupByKeyAux_of_key (pairKey x :: seen) t s hmem
            (by
              intro hc
              rcases List.mem_cons.mp hc with hc | hc
              · exact hps hc
              · exact hns hc)
          exact ⟨t2, List.mem_cons_of_mem _ ht2, hk⟩

/-- Keys surviving the dedup pass were not previously seen. -/
theorem dedupByKeyAux_key_not_seen :
    ∀ (seen : List String) (l : List Suggestion) (t : Suggestion),
      t ∈ dedupByKeyAux seen l → pairKey t ∉ seen
  | _, [], t, h => absurd h (List.not_mem_nil t)
  | seen, x :: l, t, h => by
    simp only [dedupByKeyAux] at h
    by_cases hx : pairKey x ∈ seen
    · rw [if_pos hx] at h
      exact dedupByKeyAux_key_not_seen seen l t h
    · rw [if_neg hx] at h
      rcases List.mem_cons.mp h with rfl | hmem
      · exact hx
      · have h2 := dedupByKeyAux_key_not_seen _ l t hmem
        intro hc
        exact h2 (List.mem_cons_of_mem _ hc)

/-- The dedup pass leaves pairwise-distinct keys. -/
theorem dedupByKeyAux_pairwise_keys :
    ∀ (seen : List String) (l : List Suggestion),
      (dedupByKeyAux seen l).Pairwise (fun x y => pairKey x ≠ pairKey y)
  | _, [] => List.Pairwise.nil
  | seen, x :: l => by
    simp only [dedupByKeyAux]
    by_cases hx : pairKey x ∈ seen
    · rw [if_pos hx]
      exact dedupByKeyAux_pairwise_keys seen l
    · rw [if_neg hx]
      refine List.Pairwise.cons ?_ (dedupByKeyAux_pairwise_keys _ l)
      intro y hy hk
      exact dedupByKeyAux_key_not_seen _ l y hy (by rw [← hk]; exact List.mem_cons_self _ _)

/-- C5 (amended): provided the window's activity names are hyphen-free,
the habit-stack miner returns `[]` when fewer than 3 positive-type
entries lie in the trailing 30-day window, and otherwise the first five
of the deduplicated suggestion list; that list contains a suggestion for
an unordered pair exactly when `coCount / min(dayCount_A, dayCount_B) ≥
0.5` and `coCount ≥ 2`, every suggestion carries strength
`round(100 · coCount / min(dayCounts))`, and the output is sorted
descending by strength with pairwise-distinct unordered pairs. The
hyphen-free proviso is needed because the dedup key joins the sorted
pair with `'-'`, which can collide across different pairs. -/
theorem generateStackingSuggestions_spec (entries : List Entry) (today : ℤ)
    (hHyph : ∀ u ∈ daySetsOf entries today, ∀ a ∈ u, ('-' : Char) ∉ a.toList) :
    stackSpec entries today := by
  have hsound : ∀ s ∈ dedupedSuggestions entries today,
      qualifies (daySetsOf entries today) s.triggerHabit s.linkedHabit ∧
      s.strength = specStrength (daySetsOf entries today) s.triggerHabit s.linkedHabit := by
    intro s hs
    have hraw : s ∈ rawSuggestions entries today :=
      (mem_sortedSuggestions entries today s).mp
        ((dedupByKeyAux_sublist [] (sortedSuggestions entries today)).subset hs)
    have h2 := coCounts_sound (dayActivityLists entries today) s
      (by rw [← rawSuggestions_eq]; exact hraw)
    rw [← daySetsOf_eq] at h2
    exact h2
  refine ⟨?_, ?_, hsound, ?_, ?_, ?_⟩
  · intro h
    simp only [generateStackingSuggestions]
    rw [if_pos h]
  · intro h
    simp only [generateStackingSuggestions]
    rw [if_neg (by omega)]
  · intro a b hq
    simp only [qualifies] at hq
    obtain ⟨hab, hmin, h2⟩ := hq
    have hpos : 0 < specCo (daySetsOf entries today) a b := by omega
    obtain ⟨u, hu, hau, hbu⟩ := exists_day_of_specCo_pos _ a b hpos
    have hfa : ('-' : Char) ∉ a.toList := hHyph u hu a hau
    have hfb : ('-' : Char) ∉ b.toList := hHyph u hu b hbu
    rw [daySetsOf_eq] at hmin h2
    have hmem := coCounts_emit (dayActivityLists entries today) a b hab hmin h2
    have hsorted : mkSuggestion a b
        (specStrength ((dayActivityLists entries today).map uniqFirst) a b) ∈
        sortedSuggestions entries today :=
      (mem_sortedSuggestions entries today _).mpr (by rw [rawSuggestions_eq]; exact hmem)
    obtain ⟨t, ht, hk⟩ := mem_dedupByKeyAux_of_key [] _ _ hsorted (List.not_mem_nil _)
    have htd : t ∈ dedupedSuggestions entries today := ht
    obtain ⟨hqual, _⟩ := hsound t htd
    simp only [qualifies] at hqual
    obtain ⟨htab, htmin, ht2⟩ := hqual
    have htpos : 0 < specCo (daySetsOf entries today) t.triggerHabit t.linkedHabit := by
      omega
    obtain ⟨u2, hu2, h1u2, h2u2⟩ := exists_day_of_specCo_pos _ _ _ htpos
    have hft1 : ('-' : Char) ∉ t.triggerHabit.toList := hHyph u2 hu2 _ h1u2
    have hft2 : ('-' : Char) ∉ t.linkedHabit.toList := hHyph u2 hu2 _ h2u2
    have hpq := pairKey_inj t (mkSuggestion a b _) hft1 hft2
      (by rw [mkSuggestion_triggerHabit]; exact hfa)
      (by rw [mkSuggestion_linkedHabit]; exact hfb) hk
    rcases hpq with ⟨e1, e2⟩ | ⟨e1, e2⟩
    · exact ⟨t, htd, Or.inl ⟨e1.trans (mkSuggestion_triggerHabit _ _ _),
        e2.trans (mkSuggestion_linkedHabit _ _ _)⟩⟩
    · exact ⟨t, htd, Or.inr ⟨e1.trans (mkSuggestion_linkedHabit _ _ _),
        e2.trans (mkSuggestion_triggerHabit _ _ _)⟩⟩
  · simp only [generateStackingSuggestions]
    split_ifs
    · exact List.Pairwise.nil
    · exact (sortedSuggestions_pairwise entries today).sublist
        ((List.take_sublist 5 _).trans (dedupByKeyAux_sublist [] _))
  · simp only [generateStackingSuggestions]
    split_ifs
    · exact List.Pairwise.nil
    · refine ((dedupByKeyAux_pairwise_keys [] (sortedSuggestions entries today)).sublist
        (List.take_sublist 5 _)).imp ?_
      intro x y hk hpair
      rcases hpair with ⟨e1, e2⟩ | ⟨e1, e2⟩
      · exact hk (by simp only [pairKey, e1, e2])
      · exact hk (pairKey_comm x y e1 e2)

/-- C5 witness: the amended specification, instantiated on a concrete
hyphen-free four-entry demo with the hypothesis discharged by
evaluation. -/
theorem generateStackingSuggestions_spec_witness :
    (∀ u ∈ daySetsOf demoPlainEntries 100, ∀ a ∈ u, ('-' : Char) ∉ a.toList) ∧
    stackSpec demoPlainEntries 100 :=
  ⟨by decide, generateStackingSuggestions_spec demoPlainEntries 100 (by decide)⟩

/-- C5 counterexample: with activity names `a-b`, `c`, `a`, `b-c` the
hyphen-join dedup keys of the pairs `(a-b, c)` and `(a, b-c)` collide on
`a-b-c`, so although the pair `(a, b-c)` qualifies (strength 1 ≥ 0.5,
co-occurrence 2 ≥ 2) and fewer than 5 suggestions are returned, the
whole output is the single suggestion for `(a-b, c)` — the emission
biconditional of the claim fails. -/
theorem generateStackingSuggestions_key_collision :
    generateStackingSuggestions demoStackEntries 100 = [mkSuggestion "a-b" "c" 100] ∧
    qualifies (daySetsOf demoStackEntries 100) "a" "b-c" := by
  constructor
  · have hday : dayActivityLists demoStackEntries 100 =
        [["a-b", "c"], ["a-b", "c"], ["a", "b-c"], ["a", "b-c"]] := by decide
    have hcc : coCounts [["a-b", "c"], ["a-b", "c"], ["a", "b-c"], ["a", "b-c"]] =
        ([("a-b", [("c", 2)]), ("c", [("a-b", 2)]),
          ("a", [("b-c", 2)]), ("b-c", [("a", 2)])],
         [("a-b", 2), ("c", 2), ("a", 2), ("b-c", 2)]) := by decide
    have c1 : cntD [("a-b", 2), ("c", 2), ("a", 2), ("b-c", 2)] "a-b" = 2 := by decide
    have c2 : cntD [("a-b", 2), ("c", 2), ("a", 2), ("b-c", 2)] "c" = 2 := by decide
    have c3 : cntD [("a-b", 2), ("c", 2), ("a", 2), ("b-c", 2)] "a" = 2 := by decide
    have c4 : cntD [("a-b", 2), ("c", 2), ("a", 2), ("b-c", 2)] "b-c" = 2 := by decide
    have hraw : rawSuggestions demoStackEntries 100 =
        [mkSuggestion "a-b" "c" 100, mkSuggestion "c" "a-b" 100,
         mkSuggestion "a" "b-c" 100, mkSuggestion "b-c" "a" 100] := by
      rw [rawSuggestions_eq, hday, hcc]
      simp only [suggestionsOf, List.flatMap_cons, List.flatMap_nil,
        List.filterMap_cons, List.filterMap_nil, List.append_nil, c1, c2, c3, c4]
      norm_num [jsRound_eq_floor]
    have hsorted : sortedSuggestions demoStackEntries 100 =
        [mkSuggestion "a-b" "c" 100, mkSuggestion "c" "a-b" 100,
         mkSuggestion "a" "b-c" 100, mkSuggestion "b-c" "a" 100] := by
      simp only [sortedSuggestions]
      rw [hraw]
      exact List.mergeSort_of_sorted (by decide)
    have hded : dedupedSuggestions demoStackEntries 100 =
        [mkSuggestion "a-b" "c" 100] := by
      simp only [dedupedSuggestions]
      rw [hsorted]
      decide
    simp only [generateStackingSuggestions]
    rw [if_neg (by decide), hded]
    rfl
  · simp only [qualifies]
    refine ⟨by decide, by decide, by decide⟩

end Habit

